import Mathlib

/-!
Verification development for the nightscout_backup program
(src/nightscout_backup.py).

The development shallowly embeds the program's core pipeline:
the record data model (JSON-like values), the pandas DataFrame
operations the program uses (DataFrame construction from a list of
dicts, column drop, label-aligned loc-assignment, concat,
drop_duplicates), the JSON round-trip of the standard json module,
the split_data event splitter, and the backward-pagination loops of
get_entries and get_treatments.  Python exceptions and sys.exit are
modelled with an explicit error type; the unbounded while loops are
modelled with explicit fuel (returning an error when the fuel runs
out), since the source itself has no internal termination guarantee.
-/

namespace NightscoutBackup

/-- JSON-like values as delivered by the remote service and handled by
the program.  Python dicts are ordered key-value sequences; they are
encoded as a cons chain (objNil / objCons) so that decidable equality
is derivable.  A Python string that is valid JSON text is represented
by its parse result under the jstr constructor, so that the json
module round-trip (dumps then loads) is the identity, which is the
contract the program relies on; a Python string that is not valid
JSON text is represented with str.  Pandas NaN cells and JSON null
are both modelled as null (the program never distinguishes them). -/
inductive Value where
  | null : Value
  | str (s : String) : Value
  | num (n : Int) : Value
  | jstr (v : Value) : Value
  | objNil : Value
  | objCons (k : String) (v : Value) (rest : Value) : Value
  deriving DecidableEq, Repr

/-- The key-value pairs of an object value, in order; none when the
value is not an object. -/
def Value.fieldsOf : Value → Option (List (String × Value))
  | .objNil => some []
  | .objCons k v rest => (Value.fieldsOf rest).map (fun fs => (k, v) :: fs)
  | _ => none

/-- Build an object value from a list of key-value pairs. -/
def Value.ofFields : List (String × Value) → Value
  | [] => .objNil
  | (k, v) :: rest => .objCons k v (Value.ofFields rest)

/-- One record (one JSON object of a response page), as an ordered
mapping from field name to value.  Lookup takes the first occurrence
of a key, matching dict semantics. -/
abbrev Record := List (String × Value)

/-- Failure modes of the program: the explicit sys.exit(1) after
printing the "No data found" diagnostic, the Python exceptions the
code can raise (IndexError from indexing an empty list, KeyError from
a missing dict key or DataFrame column, TypeError / JSONDecodeError
from the json module), and exhaustion of the fuel bounding the
embedded while loops. -/
inductive RunError where
  | exitNoData : RunError
  | indexError : RunError
  | keyError (k : String) : RunError
  | typeError : RunError
  | jsonDecodeError : RunError
  | fuelExhausted : RunError
  deriving DecidableEq, Repr

/-- Sequential effectful map over a list: evaluate left to right and
propagate the first raised exception, as a Python list comprehension
does. -/
def mapE (f : α → Except RunError β) : List α → Except RunError (List β)
  | [] => .ok []
  | a :: l =>
    match f a with
    | .error e => .error e
    | .ok b =>
      match mapE f l with
      | .error e => .error e
      | .ok bs => .ok (b :: bs)

/-- Dict subscript access e[k]: the value when the key is present,
KeyError otherwise. -/
def getKey (e : Record) (k : String) : Except RunError Value :=
  match e.lookup k with
  | some v => .ok v
  | none => .error (.keyError k)

/-- The json.dumps call: serializing a value yields a string whose
parse result is that value. -/
def json_dumps (v : Value) : Value := .jstr v

/-- The json.loads call: a string that is valid JSON text parses to
its parse result; a string that is not raises JSONDecodeError; a
non-string argument raises TypeError. -/
def json_loads : Value → Except RunError Value
  | .jstr v => .ok v
  | .str _ => .error .jsonDecodeError
  | _ => .error .typeError

/-- The object fields of a value, as used by Python dict iteration
(profile.items()); TypeError when the value is not an object. -/
def objFieldsOf (v : Value) : Except RunError (List (String × Value)) :=
  match v.fieldsOf with
  | some fs => .ok fs
  | none => .error .typeError

/-- A pandas DataFrame: a list of column names and one list of cell
values per row, each row having one cell per column.  The default
RangeIndex labels rows 0, 1, 2, ... in order. -/
structure Table where
  cols : List String
  rows : List (List Value)
  deriving DecidableEq, Repr

/-- Position of a column label in a column list (the first occurrence;
column lists built by the program are duplicate-free). -/
def colIdx (cols : List String) (c : String) : Option Nat :=
  match cols with
  | [] => none
  | c' :: rest => if c' = c then some 0 else (colIdx rest c).map (· + 1)

/-- Append a key to a column list unless already present. -/
def addKey (acc : List String) (k : String) : List String :=
  if k ∈ acc then acc else acc ++ [k]

/-- Column set of a DataFrame built from a list of dicts: the union of
the records' keys in order of first appearance. -/
def colsUnion (events : List Record) : List String :=
  events.foldl (fun acc e => (e.map Prod.fst).foldl addKey acc) []

/-- One DataFrame row for one record: the record's value in each
column, NaN (modelled as null) where the record lacks the key. -/
def rowOf (cols : List String) (e : Record) : List Value :=
  cols.map (fun c => (e.lookup c).getD .null)

/-- The pd.DataFrame constructor applied to a list of dicts. -/
def dataFrameOf (events : List Record) : Table :=
  ⟨colsUnion events, events.map (rowOf (colsUnion events))⟩

/-- The df.drop(label, axis=1) call: removes the column, raising
KeyError when the label is not a column. -/
def Table.dropCol (t : Table) (c : String) : Except RunError Table :=
  match colIdx t.cols c with
  | none => .error (.keyError c)
  | some j => .ok ⟨t.cols.eraseIdx j, t.rows.map (fun r => r.eraseIdx j)⟩

/-- Column extraction df[c] as the list of cell values in row order
(the series inherits the frame's RangeIndex 0, 1, ...). -/
def Table.colValues (t : Table) (c : String) : List Value :=
  match colIdx t.cols c with
  | none => []
  | some j => t.rows.map (fun r => r.getD j .null)

/-- Cell access by row position and column name. -/
def Table.cell (t : Table) (i : Nat) (c : String) : Option Value :=
  match colIdx t.cols c with
  | none => none
  | some j => t.rows[i]?.bind (fun r => r[j]?)

/-- Number of rows of a table. -/
def Table.numRows (t : Table) : Nat := t.rows.length

/-- The df.loc[mask, c] = series assignment, where mask is a boolean
list over the rows and the series carries a RangeIndex 0..k-1.
Pandas aligns the series to the selected row labels: a selected row
with label i receives series[i] when i is in the series index and NaN
otherwise; unselected rows keep their value, NaN for a new column.
This label alignment (not positional filling) is exactly what the
source relies on at the boluscalc backfill. -/
def Table.locMaskAssign (t : Table) (mask : List Bool) (c : String)
    (vals : List Value) : Table :=
  match colIdx t.cols c with
  | some j =>
    ⟨t.cols, t.rows.enum.map (fun p =>
      if mask.getD p.1 false then p.2.set j (vals.getD p.1 .null) else p.2)⟩
  | none =>
    ⟨t.cols ++ [c], t.rows.enum.map (fun p =>
      if mask.getD p.1 false then p.2 ++ [vals.getD p.1 .null]
      else p.2 ++ [Value.null])⟩

/-- The df.loc[:, c] = series assignment over all rows: row label i
receives series[i] when i is in the series index and NaN otherwise. -/
def Table.locAllAssign (t : Table) (c : String) (vals : List Value) : Table :=
  match colIdx t.cols c with
  | some j =>
    ⟨t.cols, t.rows.enum.map (fun p => p.2.set j (vals.getD p.1 .null))⟩
  | none =>
    ⟨t.cols ++ [c], t.rows.enum.map (fun p => p.2 ++ [vals.getD p.1 .null])⟩

/-- Helper for drop_duplicates: keep each element's first occurrence,
tracking the values already seen. -/
def dropDupAux [DecidableEq α] (seen : List α) : List α → List α
  | [] => []
  | a :: l => if a ∈ seen then dropDupAux seen l else a :: dropDupAux (a :: seen) l

/-- The DataFrame.drop_duplicates() call (and Python set construction
read in first-appearance order): keeps the first occurrence of each
structurally equal element. -/
def dropDuplicates [DecidableEq α] (l : List α) : List α := dropDupAux [] l

/-- The pd.concat call on a list of frames: columns are unioned in
first-appearance order and every row is reindexed to the unioned
columns, missing cells becoming NaN. -/
def concatTables (ts : List Table) : Table :=
  let cols := ts.foldl (fun acc t => t.cols.foldl addKey acc) []
  ⟨cols, ts.foldl (fun rows t =>
    rows ++ t.rows.map (fun r =>
      cols.map (fun c =>
        match colIdx t.cols c with
        | some j => r.getD j .null
        | none => .null))) []⟩

/-- The event types present in a batch, as computed by the set of
every record's eventType field: KeyError when any record lacks the
discriminator; the set is read in first-appearance order. -/
def eventTypesOf (data : List Record) : Except RunError (List Value) :=
  match mapE (fun e => getKey e "eventType") data with
  | .error e => .error e
  | .ok ets => .ok (dropDuplicates ets)

/-- The group of records of one event type, as selected by the list
comprehension filtering on the discriminator. -/
def groupOf (data : List Record) (et : Value) : List Record :=
  data.filter (fun e => decide (e.lookup "eventType" = some et))

/-- The Bolus Wizard branch of split_data: build the frame, drop the
boluscalc column (KeyError when no record has it), parse the
sub-objects of the records that carry boluscalc into their own frame,
and backfill each parsed column through a masked loc-assignment under
the boluscalc_ prefix. -/
def splitBolusWizard (events : List Record) : Except RunError Table :=
  match (dataFrameOf events).dropCol "boluscalc" with
  | .error e => .error e
  | .ok base =>
    match mapE (fun e =>
        match getKey e "boluscalc" with
        | .error er => .error er
        | .ok v => objFieldsOf v)
        (events.filter (fun e => (e.lookup "boluscalc").isSome)) with
    | .error e => .error e
    | .ok parsedRecs =>
      let parsed := dataFrameOf parsedRecs
      let bcExists := events.map (fun e => (e.lookup "boluscalc").isSome)
      .ok (parsed.cols.foldl (fun t field =>
        t.locMaskAssign bcExists ("boluscalc_" ++ field) (parsed.colValues field)) base)

/-- The Profile Switch branch of split_data: build the frame, drop the
profileJson column (KeyError when no record has it), json-parse every
record's profileJson (KeyError when a record lacks it), re-serialize
each inner profile value to a JSON string, and assign each parsed
column over all rows under the profile_ prefix. -/
def splitProfileSwitch (events : List Record) : Except RunError Table :=
  match (dataFrameOf events).dropCol "profileJson" with
  | .error e => .error e
  | .ok base =>
    match mapE (fun e =>
        match getKey e "profileJson" with
        | .error er => .error er
        | .ok v => json_loads v) events with
    | .error e => .error e
    | .ok profilesJson =>
      match mapE (fun p =>
          match objFieldsOf p with
          | .error er => .error er
          | .ok fs => .ok (fs.map (fun kv => (kv.1, json_dumps kv.2)))) profilesJson with
      | .error e => .error e
      | .ok parsedRecs =>
        let parsed := dataFrameOf parsedRecs
        .ok (parsed.cols.foldl (fun t field =>
          t.locAllAssign ("profile_" ++ field) (parsed.colValues field)) base)

/-- The processing of one event-type group inside split_data: the
special flattening branches for Bolus Wizard and Profile Switch, the
plain DataFrame construction for every other discriminator value. -/
def splitGroup (data : List Record) (et : Value) : Except RunError (Value × Table) :=
  if et = Value.str "Bolus Wizard" then
    match splitBolusWizard (groupOf data et) with
    | .error e => .error e
    | .ok t => .ok (et, t)
  else if et = Value.str "Profile Switch" then
    match splitProfileSwitch (groupOf data et) with
    | .error e => .error e
    | .ok t => .ok (et, t)
  else .ok (et, dataFrameOf (groupOf data et))

/-- The split_data function: group the batch by the eventType
discriminator and build one table per discriminator value. -/
def split_data (data : List Record) : Except RunError (List (Value × Table)) :=
  match eventTypesOf data with
  | .error e => .error e
  | .ok eventtypes => mapE (splitGroup data) eventtypes

/-- The filter dropping records without the eventType discriminator,
applied by get_treatments to every page before splitting. -/
def filterEventType (data : List Record) : List Record :=
  data.filter (fun e => (e.lookup "eventType").isSome)

/-- One treatments batch as get_treatments processes it: drop the
records lacking the discriminator, then split by event type. -/
def splitTreatmentBatch (data : List Record) : Except RunError (List (Value × Table)) :=
  split_data (filterEventType data)

/-- String interpolation of a cursor value into a request URL, for the
value shapes the program meets there (the timestamp fields are
strings, possibly numbers); other shapes are abstracted with a fixed
token. -/
def valueStr : Value → String
  | .str s => s
  | .num n => toString n
  | _ => "object"

/-- The first request string of a collection:
url + "api/v1/" + endpoint + ".json?count=" + batchsize. -/
def entriesRequest (url endpoint : String) (batchsize : Nat) : String :=
  url ++ "api/v1/" ++ endpoint ++ ".json?count=" ++ toString batchsize

/-- A follow-up request string: the first-request string with the
"&find[datefield][$lt]=cursor" filter appended. -/
def entriesRequestLt (url endpoint : String) (batchsize : Nat)
    (datefield cursor : String) : String :=
  entriesRequest url endpoint batchsize ++ "&find[" ++ datefield ++ "][$lt]=" ++ cursor

/-- The batch-size adjustment at module load: when max_records is set
and smaller than the batch size, the batch size is lowered to
max_records before any request is made. -/
def resolveBatchsize (batchsize : Nat) (maxRecords : Option Nat) : Nat :=
  match maxRecords with
  | some m => if m < batchsize then m else batchsize
  | none => batchsize

/-- The while-loop guard of both pagination loops:
max_records is None or num_records < max_records. -/
def continuePaging (maxRecords : Option Nat) (numRecords : Nat) : Bool :=
  match maxRecords with
  | none => true
  | some m => decide (numRecords < m)

/-- The df[datefield].iloc[-1] cursor extraction on a DataFrame built
from a page of records: KeyError when no record of the page has the
field (the column then does not exist, also on an empty page),
otherwise the last row's cell. -/
def dfColumnLast (data : List Record) (datefield : String) : Except RunError Value :=
  if data.all (fun e => (e.lookup datefield).isNone) then .error (.keyError datefield)
  else
    match data.getLast? with
    | none => .error .indexError
    | some e => .ok ((e.lookup datefield).getD .null)

/-- Deduplicated union of all pages of a run, row-wise:
pd.concat(all_data).drop_duplicates().  Concatenating the page frames
concatenates the record lists. -/
def mergeBatches (batches : List (List Record)) : List Record :=
  dropDuplicates batches.flatten

/-- The while loop of get_entries.  State: the page held in the data
variable, the accumulated record count, the pages accumulated in
all_data, and the cursor strings interpolated into the requests
issued so far; the fuel bounds the number of iterations and is spent
only when an iteration runs.  Each iteration takes the cursor from
the current page (df[datefield].iloc[-1]), fetches the next page,
stops on an empty page, and otherwise prints the page's date range
(which reads the datefield column and so can raise KeyError), appends
the page whole and adds its length to the count. -/
def entriesLoop (fetchNext : String → List Record) (datefield : String)
    (maxRecords : Option Nat) :
    Nat → List Record → Nat → List (List Record) → List String →
    Except RunError (List (List Record) × Nat × List String)
  | fuel, data, numRecords, allData, cursors =>
    if continuePaging maxRecords numRecords then
      match fuel with
      | 0 => .error .fuelExhausted
      | fuel + 1 =>
        match dfColumnLast data datefield with
        | .error e => .error e
        | .ok cur =>
          if (fetchNext (valueStr cur)).isEmpty then
            .ok (allData, numRecords, cursors ++ [valueStr cur])
          else
            match dfColumnLast (fetchNext (valueStr cur)) datefield with
            | .error e => .error e
            | .ok _ =>
              entriesLoop fetchNext datefield maxRecords fuel (fetchNext (valueStr cur))
                (numRecords + (fetchNext (valueStr cur)).length)
                (allData ++ [fetchNext (valueStr cur)]) (cursors ++ [valueStr cur])
    else .ok (allData, numRecords, cursors)

/-- The get_entries pipeline from the first page on: exit with the
"No data found" diagnostic when the first page is empty, print the
first page's date range (reading the datefield column), run the
pagination loop seeded with the first page, then merge and
deduplicate all pages.  Returns the merged records, the accumulated
pre-merge record count, and the cursor strings used. -/
def paginateEntries (firstPage : List Record) (fetchNext : String → List Record)
    (datefield : String) (maxRecords : Option Nat) (fuel : Nat) :
    Except RunError (List Record × Nat × List String) :=
  if firstPage.isEmpty then .error .exitNoData
  else
    match dfColumnLast firstPage datefield with
    | .error e => .error e
    | .ok _ =>
      match entriesLoop fetchNext datefield maxRecords fuel firstPage
          firstPage.length [firstPage] [] with
      | .error e => .error e
      | .ok (allData, num, cursors) => .ok (mergeBatches allData, num, cursors)

/-- The get_entries function: issue the first request, paginate with
follow-up requests carrying the strictly-less-than date filter, and
return the merged records, the accumulated count, and the full list
of request strings issued to the transport. -/
def get_entries (http : String → List Record) (url api_endpoint datefield : String)
    (batchsize : Nat) (maxRecords : Option Nat) (fuel : Nat) :
    Except RunError (List Record × Nat × List String) :=
  match paginateEntries (http (entriesRequest url api_endpoint batchsize))
      (fun cur => http (entriesRequestLt url api_endpoint batchsize datefield cur))
      datefield maxRecords fuel with
  | .error e => .error e
  | .ok (merged, num, cursors) =>
    .ok (merged, num,
      entriesRequest url api_endpoint batchsize ::
        cursors.map (entriesRequestLt url api_endpoint batchsize datefield))

/-- List subscript data[0] followed by the datefield access:
IndexError on an empty list, else KeyError when the first record
lacks the field. -/
def listHeadDate (data : List Record) (datefield : String) : Except RunError Value :=
  match data.head? with
  | none => .error .indexError
  | some e => getKey e datefield

/-- List subscript data[-1] followed by the datefield access:
IndexError on an empty list, else KeyError when the last record
lacks the field. -/
def listLastDate (data : List Record) (datefield : String) : Except RunError Value :=
  match data.getLast? with
  | none => .error .indexError
  | some e => getKey e datefield

/-- One defaultdict(list) update round: append each split table of a
batch to the list held under its event type, creating the key at the
end on first sight. -/
def addBatch (acc : List (Value × List Table)) (batch : List (Value × Table)) :
    List (Value × List Table) :=
  batch.foldl (fun acc p =>
    if (acc.lookup p.1).isSome then
      acc.map (fun q => if q.1 = p.1 then (q.1, q.2 ++ [p.2]) else q)
    else acc ++ [(p.1, [p.2])]) acc

/-- The while loop of get_treatments.  The data variable holds the
previous page already filtered on eventType, and its last element
provides the cursor (data[-1][datefield] on the plain list).  Each
iteration fetches a page, stops when it is empty, prints its first
record's date (which can raise KeyError), filters out records without
eventType, splits the filtered page and appends the per-type tables,
and adds the filtered length to the accumulated count. -/
def treatmentsLoop (fetchNext : String → List Record) (datefield : String)
    (maxRecords : Option Nat) :
    Nat → List Record → Nat → List (Value × List Table) → List String →
    Except RunError (List (Value × List Table) × Nat × List String)
  | fuel, data, numRecords, allData, cursors =>
    if continuePaging maxRecords numRecords then
      match fuel with
      | 0 => .error .fuelExhausted
      | fuel + 1 =>
        match listLastDate data datefield with
        | .error e => .error e
        | .ok cur =>
          if (fetchNext (valueStr cur)).isEmpty then
            .ok (allData, numRecords, cursors ++ [valueStr cur])
          else
            match listHeadDate (fetchNext (valueStr cur)) datefield with
            | .error e => .error e
            | .ok _ =>
              match splitTreatmentBatch (fetchNext (valueStr cur)) with
              | .error e => .error e
              | .ok batchTables =>
                treatmentsLoop fetchNext datefield maxRecords fuel
                  (filterEventType (fetchNext (valueStr cur)))
                  (numRecords + (filterEventType (fetchNext (valueStr cur))).length)
                  (addBatch allData batchTables) (cursors ++ [valueStr cur])
    else .ok (allData, numRecords, cursors)

/-- The get_treatments function: issue the first request, read
data[0][datefield] and data[-1][datefield] before the emptiness check
(so an empty first page raises IndexError there, and the explicit
"No data found" exit is unreachable), filter and split the first
page, run the loop, and concatenate each event type's tables.
Returns the per-type tables, the accumulated count of filtered
records, and the request strings issued. -/
def get_treatments (http : String → List Record) (url api_endpoint datefield : String)
    (batchsize : Nat) (maxRecords : Option Nat) (fuel : Nat) :
    Except RunError (List (Value × Table) × Nat × List String) :=
  match listHeadDate (http (entriesRequest url api_endpoint batchsize)) datefield with
  | .error e => .error e
  | .ok _ =>
    match listLastDate (http (entriesRequest url api_endpoint batchsize)) datefield with
    | .error e => .error e
    | .ok _ =>
      if (http (entriesRequest url api_endpoint batchsize)).isEmpty then
        .error .exitNoData
      else
        match splitTreatmentBatch (http (entriesRequest url api_endpoint batchsize)) with
        | .error e => .error e
        | .ok batchTables =>
          match treatmentsLoop
              (fun cur => http (entriesRequestLt url api_endpoint batchsize datefield cur))
              datefield maxRecords fuel
              (filterEventType (http (entriesRequest url api_endpoint batchsize)))
              (filterEventType (http (entriesRequest url api_endpoint batchsize))).length
              (addBatch [] batchTables) [] with
          | .error e => .error e
          | .ok (allData, num, cursors) =>
            .ok (allData.map (fun p => (p.1, concatTables p.2)), num,
              entriesRequest url api_endpoint batchsize ::
                cursors.map (entriesRequestLt url api_endpoint batchsize datefield))

/-! Basic lemmas about the embedding's building blocks. -/

theorem mapE_ok_forall₂ {f : α → Except RunError β} :
    ∀ {l : List α} {l' : List β}, mapE f l = .ok l' →
      List.Forall₂ (fun a b => f a = .ok b) l l' := by
  intro l
  induction l with
  | nil => intro l' h; simp [mapE] at h; subst h; exact List.Forall₂.nil
  | cons a l ih =>
    intro l' h
    simp only [mapE] at h
    cases hfa : f a with
    | error e => rw [hfa] at h; exact absurd h (by simp)
    | ok b =>
      rw [hfa] at h
      cases hrest : mapE f l with
      | error e => rw [hrest] at h; exact absurd h (by simp)
      | ok bs =>
        rw [hrest] at h
        simp only [Except.ok.injEq] at h
        subst h
        exact List.Forall₂.cons hfa (ih hrest)

theorem mapE_error_of_mem {f : α → Except RunError β} {a : α} {e : RunError}
    {l : List α} (ha : a ∈ l) (hf : f a = .error e) :
    ∃ err, mapE f l = .error err := by
  induction l with
  | nil => cases ha
  | cons b l ih =>
    simp only [mapE]
    cases hfb : f b with
    | error er => exact ⟨er, rfl⟩
    | ok v =>
      rcases List.mem_cons.mp ha with h | h
      · subst h; rw [hfb] at hf; cases hf
      · rcases ih h with ⟨err, herr⟩
        rw [herr]
        exact ⟨err, rfl⟩

theorem mapE_ok_length {f : α → Except RunError β} {l : List α} {l' : List β}
    (h : mapE f l = .ok l') : l'.length = l.length :=
  ((mapE_ok_forall₂ h).length_eq).symm

theorem mem_dropDupAux [DecidableEq α] {a : α} :
    ∀ {seen l : List α}, a ∈ dropDupAux seen l ↔ a ∈ l ∧ a ∉ seen := by
  intro seen l
  induction l generalizing seen with
  | nil => simp [dropDupAux]
  | cons b l ih =>
    simp only [dropDupAux]
    by_cases hb : b ∈ seen
    · rw [if_pos hb, ih]
      constructor
      · rintro ⟨h1, h2⟩
        exact ⟨List.mem_cons_of_mem b h1, h2⟩
      · rintro ⟨h1, h2⟩
        rcases List.mem_cons.mp h1 with h | h
        · subst h; exact absurd hb h2
        · exact ⟨h, h2⟩
    · rw [if_neg hb]
      constructor
      · intro h
        rcases List.mem_cons.mp h with h | h
        · subst h; exact ⟨List.mem_cons_self a l, hb⟩
        · rcases ih.mp h with ⟨h1, h2⟩
          exact ⟨List.mem_cons_of_mem b h1, fun hc => h2 (List.mem_cons_of_mem b hc)⟩
      · rintro ⟨h1, h2⟩
        rcases List.mem_cons.mp h1 with h | h
        · subst h; exact List.mem_cons_self a _
        · by_cases hab : a = b
          · subst hab; exact List.mem_cons_self a _
          · refine List.mem_cons_of_mem _ (ih.mpr ⟨h, ?_⟩)
            intro hc
            rcases List.mem_cons.mp hc with h' | h'
            · exact hab h'
            · exact h2 h'

theorem nodup_dropDupAux [DecidableEq α] :
    ∀ (seen l : List α), (dropDupAux seen l).Nodup := by
  intro seen l
  induction l generalizing seen with
  | nil => simp [dropDupAux]
  | cons b l ih =>
    simp only [dropDupAux]
    by_cases hb : b ∈ seen
    · rw [if_pos hb]; exact ih seen
    · rw [if_neg hb]
      refine List.Nodup.cons ?_ (ih (b :: seen))
      intro hmem
      exact (mem_dropDupAux.mp hmem).2 (List.mem_cons_self b seen)

theorem dropDupAux_eq_self [DecidableEq α] :
    ∀ {seen l : List α}, l.Nodup → (∀ a ∈ l, a ∉ seen) → dropDupAux seen l = l := by
  intro seen l
  induction l generalizing seen with
  | nil => intro _ _; rfl
  | cons b l ih =>
    intro hnd hout
    simp only [dropDupAux]
    rw [if_neg (hout b (List.mem_cons_self b l))]
    congr 1
    refine ih (List.Nodup.of_cons hnd) ?_
    intro a ha hmem
    rcases List.mem_cons.mp hmem with h | h
    · subst h; exact (List.nodup_cons.mp hnd).1 ha
    · exact hout a (List.mem_cons_of_mem b ha) h

theorem mem_dropDuplicates [DecidableEq α] {a : α} {l : List α} :
    a ∈ dropDuplicates l ↔ a ∈ l := by
  simp [dropDuplicates, mem_dropDupAux]

theorem nodup_dropDuplicates [DecidableEq α] (l : List α) :
    (dropDuplicates l).Nodup := nodup_dropDupAux [] l

theorem dropDuplicates_eq_self [DecidableEq α] {l : List α} (h : l.Nodup) :
    dropDuplicates l = l :=
  dropDupAux_eq_self h (by simp)

theorem colIdx_eq_none_iff {cols : List String} {c : String} :
    colIdx cols c = none ↔ c ∉ cols := by
  induction cols with
  | nil => simp [colIdx]
  | cons c' rest ih =>
    simp only [colIdx]
    by_cases h : c' = c
    · subst h; simp
    · rw [if_neg h]
      cases hrest : colIdx rest c with
      | none =>
        simp only [Option.map_none']
        constructor
        · intro _ hc
          rcases List.mem_cons.mp hc with h' | h'
          · exact h h'.symm
          · exact (ih.mp hrest) h'
        · intro _; trivial
      | some j =>
        simp only [Option.map_some']
        constructor
        · intro hc; cases hc
        · intro hc
          have hcr : c ∈ rest := by
            by_contra hcr
            rw [ih.mpr hcr] at hrest; cases hrest
          exact absurd (List.mem_cons_of_mem c' hcr) hc

theorem colIdx_get {cols : List String} {c : String} :
    ∀ {j : Nat}, colIdx cols c = some j → cols[j]? = some c := by
  induction cols with
  | nil => intro j h; simp [colIdx] at h
  | cons c' rest ih =>
    intro j h
    simp only [colIdx] at h
    by_cases hc : c' = c
    · rw [if_pos hc] at h
      simp only [Option.some.injEq] at h
      subst h; subst hc; simp
    · rw [if_neg hc] at h
      cases hrest : colIdx rest c with
      | none => rw [hrest] at h; cases h
      | some j' =>
        rw [hrest] at h
        simp only [Option.map_some', Option.some.injEq] at h
        subst h
        rw [List.getElem?_cons_succ]
        exact ih hrest

theorem colIdx_lt_length {cols : List String} {c : String} {j : Nat}
    (h : colIdx cols c = some j) : j < cols.length := by
  have := colIdx_get h
  by_contra hlt
  rw [List.getElem?_eq_none (Nat.le_of_not_lt hlt)] at this
  cases this

theorem colIdx_isSome_of_mem {cols : List String} {c : String} (h : c ∈ cols) :
    ∃ j, colIdx cols c = some j := by
  cases hc : colIdx cols c with
  | none => exact absurd (colIdx_eq_none_iff.mp hc) (by simpa using h)
  | some j => exact ⟨j, rfl⟩

theorem mem_of_getElem?_list {l : List α} {a : α} {n : Nat} (h : l[n]? = some a) :
    a ∈ l := by
  obtain ⟨hlt, he⟩ := List.getElem?_eq_some.mp h
  exact he ▸ List.getElem_mem hlt

theorem snd_mem_of_mem_enum {l : List α} {i : Nat} {a : α} (h : (i, a) ∈ l.enum) :
    a ∈ l :=
  mem_of_getElem?_list (List.mem_enum_iff_getElem?.mp h)

theorem getElem?_enum_map {l : List α} {f : Nat × α → β} {i : Nat} :
    (l.enum.map f)[i]? = (l[i]?).map (fun a => f (i, a)) := by
  simp [List.getElem?_enum, Option.map_map]
  rfl

theorem lookup_cons_ne {k k' : String} (h : k ≠ k') (v : β) (l : List (String × β)) :
    ((k', v) :: l).lookup k = l.lookup k := by
  simp only [List.lookup]
  rw [show (k == k') = false from beq_eq_false_iff_ne.mpr h]

theorem lookup_cons_self {k : String} (v : β) (l : List (String × β)) :
    ((k, v) :: l).lookup k = some v := by
  simp [List.lookup]

theorem lookup_eq_none_iff {l : List (String × β)} {k : String} :
    l.lookup k = none ↔ k ∉ l.map Prod.fst := by
  induction l with
  | nil => simp
  | cons p l ih =>
    obtain ⟨k', v⟩ := p
    by_cases h : k = k'
    · subst h
      rw [lookup_cons_self]
      simp
    · rw [lookup_cons_ne h, ih]
      simp only [List.map_cons, List.mem_cons]
      constructor
      · intro h1 h2
        rcases h2 with h2 | h2
        · exact h h2
        · exact h1 h2
      · intro h1 h2
        exact h1 (Or.inr h2)

theorem lookup_map_value {l : List (String × Value)} {g : Value → Value} {k : String} :
    (l.map (fun kv => (kv.1, g kv.2))).lookup k = (l.lookup k).map g := by
  induction l with
  | nil => rfl
  | cons p l ih =>
    obtain ⟨k', v⟩ := p
    by_cases h : k = k'
    · subst h
      simp only [List.map_cons]
      rw [lookup_cons_self, lookup_cons_self]
      rfl
    · simp only [List.map_cons]
      rw [lookup_cons_ne h, lookup_cons_ne h]
      exact ih

theorem lookup_eq_some_of_mem_nodup {l : List (String × Value)}
    (hn : (l.map Prod.fst).Nodup) {k : String} {v : Value} (h : (k, v) ∈ l) :
    l.lookup k = some v := by
  induction l with
  | nil => cases h
  | cons p l ih =>
    obtain ⟨k', v'⟩ := p
    simp only [List.map_cons] at hn
    rcases List.mem_cons.mp h with h' | h'
    · rw [Prod.mk.injEq] at h'
      obtain ⟨h1, h2⟩ := h'
      subst h1; subst h2
      exact lookup_cons_self v l
    · have hk : k ≠ k' := by
        intro he
        subst he
        exact (List.nodup_cons.mp hn).1 (List.mem_map.mpr ⟨(k, v), h', rfl⟩)
      rw [lookup_cons_ne hk]
      exact ih (List.nodup_cons.mp hn).2 h'

theorem mem_map_fst_iff {l : List (String × Value)} {k : String} :
    k ∈ l.map Prod.fst ↔ ∃ v, (k, v) ∈ l := by
  constructor
  · intro h
    rcases List.mem_map.mp h with ⟨p, hp, hfst⟩
    exact ⟨p.2, by rw [show (k, p.2) = p from Prod.ext hfst.symm rfl]; exact hp⟩
  · rintro ⟨v, hv⟩
    exact List.mem_map.mpr ⟨(k, v), hv, rfl⟩

theorem mem_foldl_addKey {c : String} :
    ∀ {ks acc : List String}, c ∈ ks.foldl addKey acc ↔ c ∈ acc ∨ c ∈ ks := by
  intro ks
  induction ks with
  | nil => simp
  | cons k ks ih =>
    intro acc
    simp only [List.foldl_cons, ih, addKey, List.mem_cons]
    by_cases h : k ∈ acc
    · rw [if_pos h]
      constructor
      · rintro (h1 | h1)
        · exact Or.inl h1
        · exact Or.inr (Or.inr h1)
      · rintro (h1 | h1 | h1)
        · exact Or.inl h1
        · subst h1; exact Or.inl h
        · exact Or.inr h1
    · rw [if_neg h]
      simp only [List.mem_append, List.mem_singleton]
      tauto

theorem nodup_foldl_addKey :
    ∀ {ks acc : List String}, acc.Nodup → (ks.foldl addKey acc).Nodup := by
  intro ks
  induction ks with
  | nil => intro _ h; exact h
  | cons k ks ih =>
    intro acc h
    simp only [List.foldl_cons]
    refine ih ?_
    unfold addKey
    by_cases hk : k ∈ acc
    · rw [if_pos hk]; exact h
    · rw [if_neg hk]
      refine List.Nodup.append h (List.nodup_singleton k) ?_
      intro a ha hb
      rw [List.mem_singleton] at hb
      subst hb
      exact hk ha

theorem mem_foldl_cols {c : String} :
    ∀ {events : List Record} {acc : List String},
      c ∈ events.foldl (fun acc e => (e.map Prod.fst).foldl addKey acc) acc ↔
        c ∈ acc ∨ ∃ e ∈ events, c ∈ e.map Prod.fst := by
  intro events
  induction events with
  | nil => simp
  | cons e events ih =>
    intro acc
    simp only [List.foldl_cons, ih, mem_foldl_addKey, List.mem_cons]
    constructor
    · rintro ((h | h) | ⟨e', he', hc⟩)
      · exact Or.inl h
      · exact Or.inr ⟨e, Or.inl rfl, h⟩
      · exact Or.inr ⟨e', Or.inr he', hc⟩
    · rintro (h | ⟨e', he' | he', hc⟩)
      · exact Or.inl (Or.inl h)
      · subst he'; exact Or.inl (Or.inr hc)
      · exact Or.inr ⟨e', he', hc⟩

theorem mem_colsUnion {events : List Record} {c : String} :
    c ∈ colsUnion events ↔ ∃ e ∈ events, c ∈ e.map Prod.fst := by
  unfold colsUnion
  rw [mem_foldl_cols]
  simp

theorem nodup_colsUnion (events : List Record) : (colsUnion events).Nodup := by
  unfold colsUnion
  have : ∀ (evs : List Record) (acc : List String), acc.Nodup →
      (evs.foldl (fun acc e => (e.map Prod.fst).foldl addKey acc) acc).Nodup := by
    intro evs
    induction evs with
    | nil => intro _ h; exact h
    | cons e evs ih =>
      intro acc h
      exact ih _ (nodup_foldl_addKey h)
  exact this events [] List.nodup_nil

theorem string_append_left_cancel {a b c : String} (h : a ++ b = a ++ c) : b = c := by
  have h2 : (a ++ b).data = (a ++ c).data := congrArg String.data h
  rw [String.data_append, String.data_append] at h2
  exact String.ext (List.append_cancel_left h2)

theorem getD_eq_getElem?_getD (l : List α) (i : Nat) (d : α) :
    l.getD i d = (l[i]?).getD d := by
  simp [List.getD]

theorem colIdx_append_self {cols : List String} {c : String} (h : c ∉ cols) :
    colIdx (cols ++ [c]) c = some cols.length := by
  induction cols with
  | nil => simp [colIdx]
  | cons c' rest ih =>
    have hne : c' ≠ c := fun he => h (he ▸ List.mem_cons_self c' rest)
    rw [List.cons_append]
    show (if c' = c then some 0 else (colIdx (rest ++ [c]) c).map (· + 1)) = _
    rw [if_neg hne, ih (fun hc => h (List.mem_cons_of_mem c' hc))]
    simp

theorem colIdx_append_ne {cols : List String} {c c' : String} (h : c ≠ c') :
    colIdx (cols ++ [c']) c = colIdx cols c := by
  induction cols with
  | nil =>
    rw [List.nil_append]
    show (if c' = c then some 0 else (colIdx [] c).map (· + 1)) = none
    rw [if_neg (fun he => h he.symm)]
    rfl
  | cons c0 rest ih =>
    rw [List.cons_append]
    show (if c0 = c then some 0 else (colIdx (rest ++ [c']) c).map (· + 1)) =
      (if c0 = c then some 0 else (colIdx rest c).map (· + 1))
    by_cases h0 : c0 = c
    · rw [if_pos h0, if_pos h0]
    · rw [if_neg h0, if_neg h0, ih]

/-- Well-formedness of a table: every row has one cell per column. -/
def Table.WF (t : Table) : Prop := ∀ r ∈ t.rows, r.length = t.cols.length

theorem dataFrameOf_WF (events : List Record) : (dataFrameOf events).WF := by
  intro r hr
  simp only [dataFrameOf] at hr ⊢
  rcases List.mem_map.mp hr with ⟨e, _, rfl⟩
  simp [rowOf]

theorem dataFrameOf_numRows (events : List Record) :
    (dataFrameOf events).numRows = events.length := by
  simp [dataFrameOf, Table.numRows]

theorem dropCol_numRows {t t' : Table} {c : String} (h : t.dropCol c = .ok t') :
    t'.numRows = t.numRows := by
  unfold Table.dropCol at h
  cases hj : colIdx t.cols c with
  | none => rw [hj] at h; cases h
  | some j =>
    rw [hj] at h
    simp only [Except.ok.injEq] at h
    subst h
    simp [Table.numRows]

theorem dropCol_WF {t t' : Table} {c : String} (hwf : t.WF) (h : t.dropCol c = .ok t') :
    t'.WF := by
  unfold Table.dropCol at h
  cases hj : colIdx t.cols c with
  | none => rw [hj] at h; cases h
  | some j =>
    rw [hj] at h
    simp only [Except.ok.injEq] at h
    subst h
    intro r hr
    simp only at hr
    rcases List.mem_map.mp hr with ⟨r0, hr0, rfl⟩
    have hjc : j < t.cols.length := colIdx_lt_length hj
    have hlen := hwf r0 hr0
    rw [List.length_eraseIdx, List.length_eraseIdx, hlen, if_pos hjc]

theorem locAllAssign_numRows (t : Table) (c : String) (vals : List Value) :
    (t.locAllAssign c vals).numRows = t.numRows := by
  unfold Table.locAllAssign
  cases colIdx t.cols c <;> simp [Table.numRows, List.enum_length]

theorem locMaskAssign_numRows (t : Table) (mask : List Bool) (c : String)
    (vals : List Value) :
    (t.locMaskAssign mask c vals).numRows = t.numRows := by
  unfold Table.locMaskAssign
  cases colIdx t.cols c <;> simp [Table.numRows, List.enum_length]

theorem locAllAssign_WF {t : Table} (hwf : t.WF) (c : String) (vals : List Value) :
    (t.locAllAssign c vals).WF := by
  unfold Table.locAllAssign
  cases hj : colIdx t.cols c with
  | some j =>
    intro r hr
    simp only at hr
    rcases List.mem_map.mp hr with ⟨⟨i, r0⟩, hmem, rfl⟩
    simp [List.length_set, hwf r0 (snd_mem_of_mem_enum hmem)]
  | none =>
    intro r hr
    simp only at hr
    rcases List.mem_map.mp hr with ⟨⟨i, r0⟩, hmem, rfl⟩
    simp [hwf r0 (snd_mem_of_mem_enum hmem)]

theorem locMaskAssign_WF {t : Table} (hwf : t.WF) (mask : List Bool) (c : String)
    (vals : List Value) :
    (t.locMaskAssign mask c vals).WF := by
  unfold Table.locMaskAssign
  cases hj : colIdx t.cols c with
  | some j =>
    intro r hr
    simp only at hr
    rcases List.mem_map.mp hr with ⟨⟨i, r0⟩, hmem, rfl⟩
    have hlen := hwf r0 (snd_mem_of_mem_enum hmem)
    dsimp only
    split
    · simp [List.length_set, hlen]
    · simp [hlen]
  | none =>
    intro r hr
    simp only at hr
    rcases List.mem_map.mp hr with ⟨⟨i, r0⟩, hmem, rfl⟩
    have hlen := hwf r0 (snd_mem_of_mem_enum hmem)
    dsimp only
    split
    · simp [hlen]
    · simp [hlen]

theorem locAllAssign_cell_assigned {t : Table} (hwf : t.WF) (c : String)
    (vals : List Value) {i : Nat} (hi : i < t.numRows) :
    (t.locAllAssign c vals).cell i c = some (vals.getD i .null) := by
  unfold Table.locAllAssign Table.cell
  have hi' : i < t.rows.length := hi
  have hrow : t.rows[i]? = some t.rows[i] := List.getElem?_eq_getElem hi'
  have hmem : t.rows[i] ∈ t.rows := List.getElem_mem hi'
  cases hj : colIdx t.cols c with
  | some j =>
    simp only [hj]
    rw [getElem?_enum_map, hrow]
    simp only [Option.map_some', Option.some_bind]
    have hjlen : j < (t.rows[i]).length := by
      rw [hwf _ hmem]
      exact colIdx_lt_length hj
    rw [List.getElem?_set_self', List.getElem?_eq_getElem hjlen]
    rfl
  | none =>
    have hnotmem : c ∉ t.cols := colIdx_eq_none_iff.mp hj
    simp only [colIdx_append_self hnotmem]
    rw [getElem?_enum_map, hrow]
    simp only [Option.map_some', Option.some_bind]
    have hlen : (t.rows[i]).length = t.cols.length := hwf _ hmem
    rw [← hlen, List.getElem?_concat_length]

theorem locAllAssign_cell_other {t : Table} (hwf : t.WF) {c c' : String}
    (hne : c ≠ c') (vals : List Value) (i : Nat) :
    (t.locAllAssign c' vals).cell i c = t.cell i c := by
  unfold Table.locAllAssign Table.cell
  cases hj' : colIdx t.cols c' with
  | some j' =>
    simp only [hj']
    cases hj : colIdx t.cols c with
    | none => simp [hj]
    | some j =>
      simp only [hj]
      rw [getElem?_enum_map]
      cases hrow : t.rows[i]? with
      | none => rfl
      | some r0 =>
        simp only [Option.map_some', Option.some_bind]
        have hne' : j' ≠ j := by
          intro he
          subst he
          have h1 := colIdx_get hj
          have h2 := colIdx_get hj'
          rw [h1] at h2
          exact hne (Option.some.inj h2)
        rw [List.getElem?_set_ne hne']
  | none =>
    simp only [hj']
    rw [colIdx_append_ne hne]
    cases hj : colIdx t.cols c with
    | none => simp [hj]
    | some j =>
      simp only [hj]
      rw [getElem?_enum_map]
      cases hrow : t.rows[i]? with
      | none => rfl
      | some r0 =>
        simp only [Option.map_some', Option.some_bind]
        have hjlen : j < r0.length := by
          rw [hwf r0 (mem_of_getElem?_list hrow)]
          exact colIdx_lt_length hj
        rw [List.getElem?_append, if_pos hjlen]

theorem foldl_table_numRows {step : Table → String → Table}
    (hstep : ∀ t c, (step t c).numRows = t.numRows) :
    ∀ (cs : List String) (t : Table), (cs.foldl step t).numRows = t.numRows := by
  intro cs
  induction cs with
  | nil => intro t; rfl
  | cons c cs ih => intro t; rw [List.foldl_cons, ih, hstep]

theorem foldl_table_WF {step : Table → String → Table}
    (hstep : ∀ t c, t.WF → (step t c).WF) :
    ∀ (cs : List String) (t : Table), t.WF → (cs.foldl step t).WF := by
  intro cs
  induction cs with
  | nil => intro t h; exact h
  | cons c cs ih => intro t h; rw [List.foldl_cons]; exact ih _ (hstep t c h)

theorem foldl_locAll_cell_untouched (vals : String → List Value) (i : Nat) :
    ∀ (cs : List String) (t : Table), t.WF →
      (∀ f ∈ cs, ("profile_" ++ f : String) ≠ c) →
      (cs.foldl (fun t f => t.locAllAssign ("profile_" ++ f) (vals f)) t).cell i c =
        t.cell i c := by
  intro cs
  induction cs with
  | nil => intro t _ _; rfl
  | cons f cs ih =>
    intro t hwf hne
    rw [List.foldl_cons]
    rw [ih _ (locAllAssign_WF hwf _ _) (fun f' hf' => hne f' (List.mem_cons_of_mem f hf'))]
    exact locAllAssign_cell_other hwf
      (fun he => hne f (List.mem_cons_self f cs) he.symm) _ i

theorem foldl_locAll_cell_assigned (vals : String → List Value) {i : Nat} :
    ∀ {cs : List String}, cs.Nodup → ∀ {t : Table}, t.WF → ∀ {k : String}, k ∈ cs →
      i < t.numRows →
      (cs.foldl (fun t f => t.locAllAssign ("profile_" ++ f) (vals f)) t).cell i
        ("profile_" ++ k) = some ((vals k).getD i .null) := by
  intro cs
  induction cs with
  | nil => intro _ t _ k hk; cases hk
  | cons f cs ih =>
    intro hnd t hwf k hk hi
    rw [List.foldl_cons]
    rcases List.mem_cons.mp hk with hkf | hkf
    · subst hkf
      have hknotin : k ∉ cs := (List.nodup_cons.mp hnd).1
      rw [foldl_locAll_cell_untouched vals i cs _ (locAllAssign_WF hwf _ _) ?_]
      · exact locAllAssign_cell_assigned hwf _ _ hi
      · intro f' hf' he
        exact hknotin (string_append_left_cancel he ▸ hf')
    · have hnum := locAllAssign_numRows t ("profile_" ++ f) (vals f)
      exact ih (List.nodup_cons.mp hnd).2 (locAllAssign_WF hwf _ _) hkf (hnum ▸ hi)

theorem forall₂_mem_left {R : α → β → Prop} {l : List α} {l' : List β}
    (h : List.Forall₂ R l l') : ∀ {a}, a ∈ l → ∃ b ∈ l', R a b := by
  induction h with
  | nil => intro a ha; cases ha
  | cons hr _ ih =>
    intro a ha
    rcases List.mem_cons.mp ha with h1 | h1
    · subst h1; exact ⟨_, List.mem_cons_self _ _, hr⟩
    · rcases ih h1 with ⟨b, hb, hRb⟩
      exact ⟨b, List.mem_cons_of_mem _ hb, hRb⟩

theorem mem_eventTypesOf {data : List Record} {ets : List Value}
    (hets : eventTypesOf data = .ok ets) {r : Record} {et : Value}
    (hr : r ∈ data) (hlk : r.lookup "eventType" = some et) : et ∈ ets := by
  unfold eventTypesOf at hets
  cases hmap : mapE (fun e => getKey e "eventType") data with
  | error er => rw [hmap] at hets; cases hets
  | ok ets0 =>
    rw [hmap] at hets
    simp only [Except.ok.injEq] at hets
    subst hets
    rw [mem_dropDuplicates]
    obtain ⟨b, hb, hRb⟩ := forall₂_mem_left (mapE_ok_forall₂ hmap) hr
    have : Except.ok (ε := RunError) et = .ok b := by
      rw [← hRb]
      unfold getKey
      rw [hlk]
    rw [show et = b from Except.ok.inj this]
    exact hb

theorem split_data_error_of_group {data : List Record} {et : Value} {e : RunError}
    (hmem_data : ∃ r ∈ data, r.lookup "eventType" = some et)
    (hgroup : splitGroup data et = .error e) :
    ∃ err, split_data data = .error err := by
  unfold split_data
  cases hets : eventTypesOf data with
  | error er => exact ⟨er, rfl⟩
  | ok ets =>
    obtain ⟨r, hr, hlk⟩ := hmem_data
    exact mapE_error_of_mem (mem_eventTypesOf hets hr hlk) hgroup

theorem splitBolusWizard_error_of_no_boluscalc {events : List Record}
    (hall : ∀ r ∈ events, r.lookup "boluscalc" = none) :
    splitBolusWizard events = .error (.keyError "boluscalc") := by
  unfold splitBolusWizard
  have hno : "boluscalc" ∉ colsUnion events := by
    rw [mem_colsUnion]
    rintro ⟨e, he, hc⟩
    exact (lookup_eq_none_iff.mp (hall e he)) hc
  have hnone : colIdx (dataFrameOf events).cols "boluscalc" = none := by
    rw [colIdx_eq_none_iff]
    simpa [dataFrameOf] using hno
  unfold Table.dropCol
  rw [hnone]

/-! The claims. -/

/-- C1: on an empty first page, the entries path terminates through the
explicit "No data found" diagnostic exit, but the treatments path
raises IndexError at the data[0][datefield] access placed before its
emptiness check, so the diagnostic exit there is dead code: the run
still aborts with a nonzero exit code and before writing anything for
the collection, but through an uncaught exception, not the explicit
diagnostic termination the claim describes. -/
theorem emptyFirstPage_behaviour :
    get_entries (fun _ => []) "http://s/" "entries" "dateString" 2000 none 5 =
      .error .exitNoData ∧
    get_treatments (fun _ => []) "http://s/" "treatments" "created_at" 2000 none 5 =
      .error .indexError ∧
    RunError.indexError ≠ RunError.exitNoData := by
  refine ⟨rfl, rfl, by decide⟩

/-- C2: the boluscalc backfill assigns the parsed sub-object columns
through df.loc with a boolean mask, but the parsed frame carries a
compacted RangeIndex, so pandas aligns by label: in a batch where a
record lacking boluscalc precedes one carrying it, the carrying
record (row 1) receives null in the boluscalc_bgdiff column although
its sub-object has the key bgdiff, refuting the claim. -/
theorem bolusWizard_backfill_misaligned :
    split_data
      [[("eventType", .str "Bolus Wizard"), ("created_at", .str "t1")],
       [("eventType", .str "Bolus Wizard"), ("created_at", .str "t2"),
        ("boluscalc", .objCons "bgdiff" (.num 5) .objNil)]] =
      .ok [(.str "Bolus Wizard",
        ⟨["eventType", "created_at", "boluscalc_bgdiff"],
         [[.str "Bolus Wizard", .str "t1", .null],
          [.str "Bolus Wizard", .str "t2", .null]]⟩)] ∧
    ([("eventType", Value.str "Bolus Wizard"), ("created_at", Value.str "t2"),
       ("boluscalc", Value.objCons "bgdiff" (Value.num 5) Value.objNil)] :
        Record).lookup "boluscalc" =
      some (Value.objCons "bgdiff" (Value.num 5) Value.objNil) ∧
    Table.cell
      ⟨["eventType", "created_at", "boluscalc_bgdiff"],
       [[.str "Bolus Wizard", .str "t1", .null],
        [.str "Bolus Wizard", .str "t2", .null]]⟩ 1 "boluscalc_bgdiff" =
      some Value.null := by
  refine ⟨rfl, rfl, rfl⟩

/-- C10: when a batch has a nonempty Bolus Wizard group in which no
record carries the boluscalc field, the boluscalc column does not
exist in the group's frame, so the drop call raises KeyError and
split_data fails instead of returning a table for the group. -/
theorem bolusWizard_no_boluscalc_split_fails (data : List Record)
    (hBW : ∃ r ∈ data, r.lookup "eventType" = some (.str "Bolus Wizard"))
    (hnone : ∀ r ∈ data, r.lookup "eventType" = some (.str "Bolus Wizard") →
      r.lookup "boluscalc" = none) :
    ∃ err, split_data data = .error err := by
  have hgerr : splitGroup data (.str "Bolus Wizard") = .error (.keyError "boluscalc") := by
    unfold splitGroup
    rw [if_pos rfl]
    rw [splitBolusWizard_error_of_no_boluscalc ?_]
    intro r hr
    have hmf := List.mem_filter.mp hr
    exact hnone r hmf.1 (of_decide_eq_true hmf.2)
  exact split_data_error_of_group hBW hgerr

/-- Witness for C10: a single Bolus Wizard record without boluscalc
makes split_data fail. -/
theorem bolusWizard_no_boluscalc_split_fails_witness :
    ∃ err, split_data [[("eventType", Value.str "Bolus Wizard")]] = .error err :=
  bolusWizard_no_boluscalc_split_fails _
    ⟨[("eventType", Value.str "Bolus Wizard")], by simp, rfl⟩
    (by
      intro r hr _
      rw [List.mem_singleton] at hr
      subst hr
      rfl)

theorem mem_groupOf {data : List Record} {et : Value} {r : Record} :
    r ∈ groupOf data et ↔ r ∈ data ∧ r.lookup "eventType" = some et := by
  unfold groupOf
  rw [List.mem_filter]
  simp

theorem splitProfileSwitch_error_of_missing {events : List Record}
    (h : ∃ r ∈ events, r.lookup "profileJson" = none) :
    ∃ e, splitProfileSwitch events = .error e := by
  unfold splitProfileSwitch
  cases hdrop : (dataFrameOf events).dropCol "profileJson" with
  | error e => exact ⟨e, rfl⟩
  | ok base =>
    obtain ⟨r, hr, hlk⟩ := h
    have hkerr : (fun e => match getKey e "profileJson" with
        | .error er => .error er
        | .ok v => json_loads v) r =
          Except.error (RunError.keyError "profileJson") := by
      simp [getKey, hlk]
    obtain ⟨err, herr⟩ := @mapE_error_of_mem Record Value
      (fun e => match getKey e "profileJson" with
        | .error er => .error er
        | .ok v => json_loads v) r (RunError.keyError "profileJson") events hr hkerr
    rw [herr]
    exact ⟨err, rfl⟩

/-- C8: a batch containing a Profile Switch record that lacks the
profileJson field makes split_data fail hard: either the profileJson
column is absent from the group frame (drop raises KeyError) or the
parse loop raises KeyError on the lacking record; there is no
defensive skip. -/
theorem profileSwitch_missing_profileJson_fails (data : List Record)
    (h : ∃ r ∈ data, r.lookup "eventType" = some (.str "Profile Switch") ∧
      r.lookup "profileJson" = none) :
    ∃ err, split_data data = .error err := by
  obtain ⟨r, hr, hps, hpj⟩ := h
  have hmem : ∃ x ∈ data, x.lookup "eventType" = some (.str "Profile Switch") :=
    ⟨r, hr, hps⟩
  have hgrp : ∃ e, splitGroup data (.str "Profile Switch") = .error e := by
    unfold splitGroup
    rw [if_neg (by decide), if_pos rfl]
    obtain ⟨e, he⟩ := splitProfileSwitch_error_of_missing
      ⟨r, mem_groupOf.mpr ⟨hr, hps⟩, hpj⟩
    rw [he]
    exact ⟨e, rfl⟩
  obtain ⟨e, he⟩ := hgrp
  exact split_data_error_of_group hmem he

/-- Witness for C8: a single Profile Switch record without profileJson
makes split_data fail. -/
theorem profileSwitch_missing_profileJson_fails_witness :
    ∃ err, split_data [[("eventType", Value.str "Profile Switch")]] = .error err :=
  profileSwitch_missing_profileJson_fails _
    ⟨[("eventType", Value.str "Profile Switch")], by simp, rfl, rfl⟩

/-- Number of occurrences of an element, by structural equality. -/
def countOcc [DecidableEq α] (a : α) (l : List α) : Nat :=
  (l.filter (fun b => decide (b = a))).length

theorem countOcc_eq_one_of_nodup_mem [DecidableEq α] {a : α} {l : List α}
    (hnd : l.Nodup) (ha : a ∈ l) : countOcc a l = 1 := by
  induction l with
  | nil => cases ha
  | cons b l ih =>
    unfold countOcc
    by_cases hb : b = a
    · subst hb
      rw [List.filter_cons_of_pos (by simp)]
      have hnotin : b ∉ l := (List.nodup_cons.mp hnd).1
      have : l.filter (fun x => decide (x = b)) = [] := by
        rw [List.filter_eq_nil_iff]
        intro x hx
        simp only [decide_eq_true_eq]
        intro he
        exact hnotin (he ▸ hx)
      rw [this]
      rfl
    · rw [List.filter_cons_of_neg (by simpa using hb)]
      have ha' : a ∈ l := by
        rcases List.mem_cons.mp ha with h | h
        · exact absurd h.symm hb
        · exact h
      exact ih (List.nodup_cons.mp hnd).2 ha'

/-- C6: merging and deduplicating two pages whose boundary record is
structurally repeated (last of page 1 equals first of page 2) keeps
that record exactly once, while two records that share a timestamp
but differ in any field both survive deduplication. -/
theorem boundary_overlap_dedup (datefield : String) (p1 p2 : List Record) (r : Record)
    (h1 : p1.getLast? = some r) (h2 : p2.head? = some r) :
    countOcc r (mergeBatches [p1, p2]) = 1 ∧
    (∀ r1 r2 : Record, r1 ∈ p1 ++ p2 → r2 ∈ p1 ++ p2 →
      r1.lookup datefield = r2.lookup datefield → r1 ≠ r2 →
      r1 ∈ mergeBatches [p1, p2] ∧ r2 ∈ mergeBatches [p1, p2]) := by
  have hflat : ([p1, p2] : List (List Record)).flatten = p1 ++ p2 := by simp
  have hhead : r ∈ p2 := List.mem_of_mem_head? h2
  constructor
  · unfold mergeBatches
    rw [hflat]
    refine countOcc_eq_one_of_nodup_mem (nodup_dropDuplicates (p1 ++ p2)) ?_
    rw [mem_dropDuplicates]
    exact List.mem_append_left p2 (List.mem_of_mem_getLast? h1)
  · intro r1 r2 hr1 hr2 _ _
    unfold mergeBatches
    rw [hflat]
    exact ⟨mem_dropDuplicates.mpr hr1, mem_dropDuplicates.mpr hr2⟩

/-- Witness for C6: two concrete overlapping pages. -/
theorem boundary_overlap_dedup_witness :
    countOcc [("dateString", Value.str "a")]
      (mergeBatches [[[("dateString", Value.str "b")], [("dateString", Value.str "a")]],
        [[("dateString", Value.str "a")]]]) = 1 ∧
    (∀ r1 r2 : Record,
      r1 ∈ [[("dateString", Value.str "b")], [("dateString", Value.str "a")]] ++
        [[("dateString", Value.str "a")]] →
      r2 ∈ [[("dateString", Value.str "b")], [("dateString", Value.str "a")]] ++
        [[("dateString", Value.str "a")]] →
      r1.lookup "dateString" = r2.lookup "dateString" → r1 ≠ r2 →
      r1 ∈ mergeBatches [[[("dateString", Value.str "b")], [("dateString", Value.str "a")]],
        [[("dateString", Value.str "a")]]] ∧
      r2 ∈ mergeBatches [[[("dateString", Value.str "b")], [("dateString", Value.str "a")]],
        [[("dateString", Value.str "a")]]]) :=
  boundary_overlap_dedup "dateString"
    [[("dateString", Value.str "b")], [("dateString", Value.str "a")]]
    [[("dateString", Value.str "a")]] [("dateString", Value.str "a")] rfl rfl

/-- C9: when max_records M is set below the requested batch size B,
the module-load adjustment lowers the batch size to M before any
request, and every request string issued by an entries run and by a
treatments run (the first request and every cursor-filtered follow-up
alike) is built with count = M. -/
theorem effective_batchsize_reduced (B M : Nat) (hMB : M < B)
    (http : String → List Record) (url ep df : String) (fuel : Nat) :
    resolveBatchsize B (some M) = M ∧
    (∀ merged num reqs,
      get_entries http url ep df (resolveBatchsize B (some M)) (some M) fuel =
        .ok (merged, num, reqs) →
      ∀ r ∈ reqs, r = entriesRequest url ep M ∨
        ∃ c, r = entriesRequestLt url ep M df c) ∧
    (∀ tabs num reqs,
      get_treatments http url ep df (resolveBatchsize B (some M)) (some M) fuel =
        .ok (tabs, num, reqs) →
      ∀ r ∈ reqs, r = entriesRequest url ep M ∨
        ∃ c, r = entriesRequestLt url ep M df c) := by
  have hres : resolveBatchsize B (some M) = M := by
    show (if M < B then M else B) = M
    rw [if_pos hMB]
  refine ⟨hres, ?_, ?_⟩
  · intro merged num reqs hok r hr
    rw [hres] at hok
    unfold get_entries at hok
    split at hok
    · simp at hok
    · rename_i res m n curs heq
      simp only [Except.ok.injEq, Prod.mk.injEq] at hok
      obtain ⟨h1, h2, h3⟩ := hok
      rw [← h3] at hr
      rcases List.mem_cons.mp hr with h | h
      · exact Or.inl h
      · rcases List.mem_map.mp h with ⟨c, _, hc⟩
        exact Or.inr ⟨c, hc.symm⟩
  · intro tabs num reqs hok r hr
    rw [hres] at hok
    unfold get_treatments at hok
    split at hok
    · simp at hok
    · split at hok
      · simp at hok
      · split at hok
        · simp at hok
        · split at hok
          · simp at hok
          · split at hok
            · simp at hok
            · simp only [Except.ok.injEq, Prod.mk.injEq] at hok
              obtain ⟨h1, h2, h3⟩ := hok
              rw [← h3] at hr
              rcases List.mem_cons.mp hr with h | h
              · exact Or.inl h
              · rcases List.mem_map.mp h with ⟨c, _, hc⟩
                exact Or.inr ⟨c, hc.symm⟩

/-- Witness for C9: a concrete configuration with M = 3 below B = 5. -/
theorem effective_batchsize_reduced_witness :
    resolveBatchsize 5 (some 3) = 3 ∧
    (∀ merged num reqs,
      get_entries (fun _ => []) "u" "entries" "dateString"
          (resolveBatchsize 5 (some 3)) (some 3) 2 = .ok (merged, num, reqs) →
      ∀ r ∈ reqs, r = entriesRequest "u" "entries" 3 ∨
        ∃ c, r = entriesRequestLt "u" "entries" 3 "dateString" c) ∧
    (∀ tabs num reqs,
      get_treatments (fun _ => []) "u" "entries" "dateString"
          (resolveBatchsize 5 (some 3)) (some 3) 2 = .ok (tabs, num, reqs) →
      ∀ r ∈ reqs, r = entriesRequest "u" "entries" 3 ∨
        ∃ c, r = entriesRequestLt "u" "entries" 3 "dateString" c) :=
  effective_batchsize_reduced 5 3 (by decide) (fun _ => []) "u" "entries" "dateString" 2

theorem forall₂_mem_right {R : α → β → Prop} {l : List α} {l' : List β}
    (h : List.Forall₂ R l l') : ∀ {b}, b ∈ l' → ∃ a ∈ l, R a b := by
  induction h with
  | nil => intro b hb; cases hb
  | cons hr _ ih =>
    intro b hb
    rcases List.mem_cons.mp hb with h1 | h1
    · subst h1; exact ⟨_, List.mem_cons_self _ _, hr⟩
    · rcases ih h1 with ⟨a, ha, hRa⟩
      exact ⟨a, List.mem_cons_of_mem _ ha, hRa⟩

theorem eventTypesOf_ok_nodup {data : List Record} {ets : List Value}
    (h : eventTypesOf data = .ok ets) : ets.Nodup := by
  unfold eventTypesOf at h
  cases hm : mapE (fun e => getKey e "eventType") data with
  | error e => rw [hm] at h; cases h
  | ok ets0 =>
    rw [hm] at h
    simp only [Except.ok.injEq] at h
    subst h
    exact nodup_dropDuplicates ets0

theorem splitGroup_ok_fst {data : List Record} {et : Value} {p : Value × Table}
    (h : splitGroup data et = .ok p) : p.1 = et := by
  unfold splitGroup at h
  split at h
  · split at h
    · simp at h
    · simp only [Except.ok.injEq] at h
      rw [← h]
  · split at h
    · split at h
      · simp at h
      · simp only [Except.ok.injEq] at h
        rw [← h]
    · simp only [Except.ok.injEq] at h
      rw [← h]

theorem forall₂_splitGroup_keys {data : List Record} :
    ∀ {ets : List Value} {tables : List (Value × Table)},
      List.Forall₂ (fun et p => splitGroup data et = .ok p) ets tables →
      tables.map Prod.fst = ets := by
  intro ets tables h
  induction h with
  | nil => rfl
  | cons hr _ ih =>
    rw [List.map_cons, ih, splitGroup_ok_fst hr]

theorem splitBolusWizard_ok_numRows {events : List Record} {t : Table}
    (h : splitBolusWizard events = .ok t) : t.numRows = events.length := by
  unfold splitBolusWizard at h
  split at h
  · simp at h
  · rename_i base hdrop
    split at h
    · simp at h
    · simp only [Except.ok.injEq] at h
      subst h
      rw [foldl_table_numRows (fun t c => locMaskAssign_numRows t _ ("boluscalc_" ++ c) _)
        _ base]
      rw [dropCol_numRows hdrop, dataFrameOf_numRows]

theorem splitProfileSwitch_ok_numRows {events : List Record} {t : Table}
    (h : splitProfileSwitch events = .ok t) : t.numRows = events.length := by
  unfold splitProfileSwitch at h
  split at h
  · simp at h
  · rename_i base hdrop
    split at h
    · simp at h
    · split at h
      · simp at h
      · simp only [Except.ok.injEq] at h
        subst h
        rw [foldl_table_numRows (fun t c => locAllAssign_numRows t ("profile_" ++ c) _)
          _ base]
        rw [dropCol_numRows hdrop, dataFrameOf_numRows]

theorem splitGroup_ok_numRows {data : List Record} {et : Value} {p : Value × Table}
    (h : splitGroup data et = .ok p) :
    p.2.numRows = (groupOf data et).length := by
  unfold splitGroup at h
  split at h
  · split at h
    · simp at h
    · rename_i t hbw
      simp only [Except.ok.injEq] at h
      rw [← h]
      exact splitBolusWizard_ok_numRows hbw
  · split at h
    · split at h
      · simp at h
      · rename_i t hps
        simp only [Except.ok.injEq] at h
        rw [← h]
        exact splitProfileSwitch_ok_numRows hps
    · simp only [Except.ok.injEq] at h
      rw [← h]
      exact dataFrameOf_numRows _

theorem splitGroup_ok_plain {data : List Record} {et : Value} {p : Value × Table}
    (h : splitGroup data et = .ok p) (hbw : et ≠ .str "Bolus Wizard")
    (hps : et ≠ .str "Profile Switch") :
    p.2 = dataFrameOf (groupOf data et) := by
  unfold splitGroup at h
  rw [if_neg hbw, if_neg hps] at h
  simp only [Except.ok.injEq] at h
  rw [← h]

theorem mem_filterEventType {data : List Record} {r : Record} :
    r ∈ filterEventType data ↔ r ∈ data ∧ (r.lookup "eventType").isSome := by
  unfold filterEventType
  rw [List.mem_filter]

/-- C5: when splitting succeeds, the output tables carry pairwise
distinct discriminator keys; a record lacking the discriminator lands
in no group; a record with discriminator value et lands in the group
of the table keyed et and in no other group; and each output table
has exactly one row per record of its group, the non-special tables
being the plain DataFrame of their group. -/
theorem splitting_completeness (data : List Record) (tables : List (Value × Table))
    (hok : splitTreatmentBatch data = .ok tables) :
    (tables.map Prod.fst).Nodup ∧
    (∀ r ∈ data, r.lookup "eventType" = none →
      ∀ et : Value, r ∉ groupOf (filterEventType data) et) ∧
    (∀ r ∈ data, ∀ et : Value, r.lookup "eventType" = some et →
      et ∈ tables.map Prod.fst ∧ r ∈ groupOf (filterEventType data) et ∧
      ∀ et' : Value, et' ≠ et → r ∉ groupOf (filterEventType data) et') ∧
    (∀ p ∈ tables, p.2.numRows = (groupOf (filterEventType data) p.1).length) ∧
    (∀ p ∈ tables, p.1 ≠ .str "Bolus Wizard" → p.1 ≠ .str "Profile Switch" →
      p.2 = dataFrameOf (groupOf (filterEventType data) p.1)) := by
  unfold splitTreatmentBatch split_data at hok
  cases hets : eventTypesOf (filterEventType data) with
  | error e => rw [hets] at hok; cases hok
  | ok ets =>
    rw [hets] at hok
    have hf2 := mapE_ok_forall₂ hok
    have hkeys : tables.map Prod.fst = ets := forall₂_splitGroup_keys hf2
    refine ⟨?_, ?_, ?_, ?_, ?_⟩
    · rw [hkeys]
      exact eventTypesOf_ok_nodup hets
    · intro r _ hnone et hmem
      obtain ⟨_, hlk⟩ := mem_groupOf.mp hmem
      rw [hnone] at hlk
      cases hlk
    · intro r hr et hlk
      have hrf : r ∈ filterEventType data :=
        mem_filterEventType.mpr ⟨hr, by rw [hlk]; rfl⟩
      refine ⟨?_, mem_groupOf.mpr ⟨hrf, hlk⟩, ?_⟩
      · rw [hkeys]
        exact mem_eventTypesOf hets hrf hlk
      · intro et' hne hmem
        obtain ⟨_, hlk'⟩ := mem_groupOf.mp hmem
        rw [hlk] at hlk'
        exact hne (Option.some.inj hlk').symm
    · intro p hp
      obtain ⟨et, _, hR⟩ := forall₂_mem_right hf2 hp
      have hfst := splitGroup_ok_fst hR
      rw [hfst]
      exact splitGroup_ok_numRows hR
    · intro p hp hbw hps
      obtain ⟨et, _, hR⟩ := forall₂_mem_right hf2 hp
      have hfst := splitGroup_ok_fst hR
      rw [hfst]
      exact splitGroup_ok_plain hR (hfst ▸ hbw) (hfst ▸ hps)

/-- Witness for C5: a batch with one Carbs record and one record
lacking the discriminator. -/
theorem splitting_completeness_witness :
    (([(Value.str "Carbs",
        ⟨["eventType", "g"], [[Value.str "Carbs", Value.num 10]]⟩)] :
          List (Value × Table)).map Prod.fst).Nodup ∧
    (∀ r ∈ ([[("eventType", Value.str "Carbs"), ("g", Value.num 10)], [("x", Value.num 1)]] :
        List Record), r.lookup "eventType" = none →
      ∀ et : Value, r ∉ groupOf (filterEventType
        [[("eventType", Value.str "Carbs"), ("g", Value.num 10)], [("x", Value.num 1)]]) et) ∧
    (∀ r ∈ ([[("eventType", Value.str "Carbs"), ("g", Value.num 10)], [("x", Value.num 1)]] :
        List Record), ∀ et : Value, r.lookup "eventType" = some et →
      et ∈ ([(Value.str "Carbs",
        ⟨["eventType", "g"], [[Value.str "Carbs", Value.num 10]]⟩)] :
          List (Value × Table)).map Prod.fst ∧
      r ∈ groupOf (filterEventType
        [[("eventType", Value.str "Carbs"), ("g", Value.num 10)], [("x", Value.num 1)]]) et ∧
      ∀ et' : Value, et' ≠ et → r ∉ groupOf (filterEventType
        [[("eventType", Value.str "Carbs"), ("g", Value.num 10)], [("x", Value.num 1)]]) et') ∧
    (∀ p ∈ ([(Value.str "Carbs",
        ⟨["eventType", "g"], [[Value.str "Carbs", Value.num 10]]⟩)] :
          List (Value × Table)),
      p.2.numRows = (groupOf (filterEventType
        [[("eventType", Value.str "Carbs"), ("g", Value.num 10)], [("x", Value.num 1)]]) p.1).length) ∧
    (∀ p ∈ ([(Value.str "Carbs",
        ⟨["eventType", "g"], [[Value.str "Carbs", Value.num 10]]⟩)] :
          List (Value × Table)),
      p.1 ≠ .str "Bolus Wizard" → p.1 ≠ .str "Profile Switch" →
      p.2 = dataFrameOf (groupOf (filterEventType
        [[("eventType", Value.str "Carbs"), ("g", Value.num 10)], [("x", Value.num 1)]]) p.1)) :=
  splitting_completeness
    [[("eventType", Value.str "Carbs"), ("g", Value.num 10)], [("x", Value.num 1)]]
    [(Value.str "Carbs", ⟨["eventType", "g"], [[Value.str "Carbs", Value.num 10]]⟩)]
    rfl

theorem forall₂_getElem? {R : α → β → Prop} {l : List α} {l' : List β}
    (h : List.Forall₂ R l l') : ∀ {i : Nat} {a : α}, l[i]? = some a →
      ∃ b, l'[i]? = some b ∧ R a b := by
  induction h with
  | nil => intro i a ha; rw [List.getElem?_nil] at ha; cases ha
  | cons hr _ ih =>
    intro i a ha
    cases i with
    | zero =>
      rw [List.getElem?_cons_zero] at ha
      obtain rfl := Option.some.inj ha
      exact ⟨_, List.getElem?_cons_zero, hr⟩
    | succ i =>
      rw [List.getElem?_cons_succ] at ha
      obtain ⟨b, hb, hRb⟩ := ih ha
      exact ⟨b, by rw [List.getElem?_cons_succ]; exact hb, hRb⟩

theorem colValues_getD {parsedRecs : List (List (String × Value))} {k : String} {i : Nat}
    {rec : List (String × Value)} (hrec : parsedRecs[i]? = some rec)
    (hk : k ∈ (dataFrameOf parsedRecs).cols) :
    ((dataFrameOf parsedRecs).colValues k).getD i .null = (rec.lookup k).getD .null := by
  obtain ⟨j, hj⟩ := colIdx_isSome_of_mem hk
  unfold Table.colValues
  rw [hj]
  show ((parsedRecs.map (rowOf (colsUnion parsedRecs))).map
    (fun r => r.getD j .null)).getD i .null = _
  rw [List.map_map, getD_eq_getElem?_getD, List.getElem?_map, hrec]
  simp only [Option.map_some', Option.getD_some, Function.comp_apply]
  unfold rowOf
  have hjk : (colsUnion parsedRecs)[j]? = some k := colIdx_get hj
  rw [getD_eq_getElem?_getD, List.getElem?_map, hjk]
  rfl

/-- C7: in a successful split, the Profile Switch table stores, for
each record and each key k of the record's parsed profileJson object,
the JSON re-serialization of the nested value in the profile_k
column, and parsing that cell back yields exactly the original nested
value (round trip); only this one level is flattened. -/
theorem profileSwitch_roundTrip (data : List Record) (tables : List (Value × Table))
    (hok : split_data data = .ok tables) {t : Table}
    (ht : (Value.str "Profile Switch", t) ∈ tables)
    {i : Nat} {r : Record}
    (hr : (groupOf data (.str "Profile Switch"))[i]? = some r)
    {pv pobj : Value} (hpj : r.lookup "profileJson" = some pv)
    (hload : json_loads pv = .ok pobj)
    {fs : List (String × Value)} (hfs : pobj.fieldsOf = some fs)
    (hnd : (fs.map Prod.fst).Nodup) :
    ∀ k v, (k, v) ∈ fs →
      t.cell i ("profile_" ++ k) = some (json_dumps v) ∧
      json_loads (json_dumps v) = .ok v := by
  -- recover the Profile Switch branch from the successful split
  unfold split_data at hok
  cases hets : eventTypesOf data with
  | error e => rw [hets] at hok; cases hok
  | ok ets =>
    rw [hets] at hok
    obtain ⟨et, _, hR⟩ := forall₂_mem_right (mapE_ok_forall₂ hok) ht
    have hfst : Value.str "Profile Switch" = et := splitGroup_ok_fst hR
    subst hfst
    unfold splitGroup at hR
    rw [if_neg (by decide), if_pos rfl] at hR
    have hsps : splitProfileSwitch (groupOf data (.str "Profile Switch")) = .ok t := by
      cases hx : splitProfileSwitch (groupOf data (.str "Profile Switch")) with
      | error e => rw [hx] at hR; cases hR
      | ok t' =>
        rw [hx] at hR
        simp only [Except.ok.injEq, Prod.mk.injEq] at hR
        rw [hR.2]
    clear hR hok
    -- unfold the Profile Switch branch
    unfold splitProfileSwitch at hsps
    split at hsps
    · cases hsps
    · rename_i base hdrop
      split at hsps
      · cases hsps
      · rename_i profilesJson hm1
        split at hsps
        · cases hsps
        · rename_i parsedRecs hm2
          simp only [Except.ok.injEq] at hsps
          subst hsps
          -- follow the record through the two parse maps
          obtain ⟨pi, hpi, hR1⟩ := forall₂_getElem? (mapE_ok_forall₂ hm1) hr
          have hpi_obj : pi = pobj := by
            simp only [getKey, hpj] at hR1
            rw [hload] at hR1
            exact (Except.ok.inj hR1).symm
          subst hpi_obj
          obtain ⟨rec, hrec, hR2⟩ := forall₂_getElem? (mapE_ok_forall₂ hm2) hpi
          have hrec_eq : rec = fs.map (fun kv => (kv.1, json_dumps kv.2)) := by
            simp only [objFieldsOf, hfs] at hR2
            exact (Except.ok.inj hR2).symm
          subst hrec_eq
          intro k v hkv
          -- the assigned column exists in the parsed frame
          have hkmem : k ∈ (dataFrameOf parsedRecs).cols := by
            show k ∈ colsUnion parsedRecs
            rw [mem_colsUnion]
            refine ⟨_, mem_of_getElem?_list hrec, ?_⟩
            exact List.mem_map.mpr ⟨(k, json_dumps v),
              List.mem_map.mpr ⟨(k, v), hkv, rfl⟩, rfl⟩
          -- row bound and well-formedness of the base frame
          have hlen : i < (groupOf data (.str "Profile Switch")).length :=
            (List.getElem?_eq_some.mp hr).1
          have hbase_rows : base.numRows = (groupOf data (.str "Profile Switch")).length := by
            rw [dropCol_numRows hdrop, dataFrameOf_numRows]
          have hbase_wf : base.WF := dropCol_WF (dataFrameOf_WF _) hdrop
          refine ⟨?_, rfl⟩
          have hnd_cols : ((dataFrameOf parsedRecs).cols).Nodup := nodup_colsUnion parsedRecs
          rw [foldl_locAll_cell_assigned (fun f => (dataFrameOf parsedRecs).colValues f)
            hnd_cols hbase_wf hkmem (by rw [hbase_rows]; exact hlen)]
          rw [colValues_getD hrec hkmem]
          rw [show ((fs.map (fun kv => (kv.1, json_dumps kv.2))).lookup k) =
              some (json_dumps v) by
            rw [@lookup_map_value fs json_dumps k,
              lookup_eq_some_of_mem_nodup hnd hkv]
            rfl]
          rfl

/-- Witness for C7: one Profile Switch record whose profileJson parses
to an object with a single nested basal profile, evaluated at the
basal key. -/
theorem profileSwitch_roundTrip_witness :
    Table.cell ⟨["eventType", "profile_basal"],
        [[Value.str "Profile Switch",
          Value.jstr (Value.objCons "value" (Value.num 1) Value.objNil)]]⟩
      0 ("profile_" ++ "basal") =
      some (json_dumps (Value.objCons "value" (Value.num 1) Value.objNil)) ∧
    json_loads (json_dumps (Value.objCons "value" (Value.num 1) Value.objNil)) =
      .ok (Value.objCons "value" (Value.num 1) Value.objNil) :=
  @profileSwitch_roundTrip
    [[("eventType", .str "Profile Switch"),
      ("profileJson", .jstr (.objCons "basal"
        (.objCons "value" (.num 1) .objNil) .objNil))]]
    [(Value.str "Profile Switch",
      ⟨["eventType", "profile_basal"],
       [[Value.str "Profile Switch",
         Value.jstr (Value.objCons "value" (Value.num 1) Value.objNil)]]⟩)]
    rfl
    ⟨["eventType", "profile_basal"],
     [[Value.str "Profile Switch",
       Value.jstr (Value.objCons "value" (Value.num 1) Value.objNil)]]⟩
    (List.mem_singleton.mpr rfl)
    0
    [("eventType", .str "Profile Switch"),
     ("profileJson", .jstr (.objCons "basal"
       (.objCons "value" (.num 1) .objNil) .objNil))]
    rfl
    (.jstr (.objCons "basal" (.objCons "value" (.num 1) .objNil) .objNil))
    (.objCons "basal" (.objCons "value" (.num 1) .objNil) .objNil)
    rfl rfl
    [("basal", Value.objCons "value" (Value.num 1) Value.objNil)]
    rfl (by simp)
    "basal" (Value.objCons "value" (Value.num 1) Value.objNil)
    (List.mem_singleton.mpr rfl)

theorem continuePaging_some_false {M num : Nat} (h : M ≤ num) :
    continuePaging (some M) num = false := by
  unfold continuePaging
  exact decide_eq_false (Nat.not_lt.mpr h)

theorem continuePaging_some_true {M num : Nat} (h : num < M) :
    continuePaging (some M) num = true := by
  unfold continuePaging
  exact decide_eq_true h

theorem dfColumnLast_ok {data : List Record} {datefield : String}
    (hne : data ≠ []) (hall : ∀ e ∈ data, (e.lookup datefield).isSome) :
    ∃ v, dfColumnLast data datefield = .ok v := by
  unfold dfColumnLast
  have hnotall : data.all (fun e => (e.lookup datefield).isNone) = false := by
    cases data with
    | nil => exact absurd rfl hne
    | cons e l =>
      have h1 := hall e (List.mem_cons_self e l)
      rw [List.all_cons]
      cases hx : List.lookup datefield e with
      | none => rw [hx] at h1; cases h1
      | some v =>
        show ((some v).isNone && _) = false
        rfl
  rw [if_neg (by rw [hnotall]; exact Bool.false_ne_true)]
  cases hlast : data.getLast? with
  | none => exact absurd (List.getLast?_eq_none_iff.mp hlast) hne
  | some e => exact ⟨_, rfl⟩

theorem entriesLoop_exit {fetchNext : String → List Record} {datefield : String}
    {M fuel num : Nat} {data : List Record} {acc : List (List Record)}
    {curs : List String} (h : M ≤ num) :
    entriesLoop fetchNext datefield (some M) fuel data num acc curs =
      .ok (acc, num, curs) := by
  unfold entriesLoop
  simp [continuePaging_some_false h]

theorem entriesLoop_fullPages
    (fetchNext : String → List Record) (datefield : String) (B M : Nat)
    (hB : 0 < B)
    (hpages : ∀ c, (fetchNext c).length = B)
    (hdf : ∀ c, ∀ e ∈ fetchNext c, (e.lookup datefield).isSome) :
    ∀ (fuel : Nat) (data : List Record) (num : Nat) (acc : List (List Record))
      (curs : List String),
      data.length = B → (∀ e ∈ data, (e.lookup datefield).isSome) →
      num = (acc.map List.length).sum → (∀ p ∈ acc, p.length = B) →
      num < M + B → M - num ≤ fuel →
      ∃ pages num' curs',
        entriesLoop fetchNext datefield (some M) fuel data num acc curs =
          .ok (pages, num', curs') ∧
        (∀ p ∈ pages, p.length = B) ∧
        num' = (pages.map List.length).sum ∧ M ≤ num' ∧ num' < M + B := by
  intro fuel
  induction fuel with
  | zero =>
    intro data num acc curs _ _ hsum hpagesB hlt hfuel
    exact ⟨acc, num, curs, entriesLoop_exit (by omega), hpagesB, hsum, by omega, hlt⟩
  | succ fuel ih =>
    intro data num acc curs hdata hdf2 hsum hpagesB hlt hfuel
    by_cases hnum : num < M
    · have hdne : data ≠ [] := by
        intro h0
        rw [h0] at hdata
        simp at hdata
        omega
      obtain ⟨cur, hcur⟩ := dfColumnLast_ok hdne hdf2
      have hpageB := hpages (valueStr cur)
      have hpne : fetchNext (valueStr cur) ≠ [] := by
        intro h0
        rw [h0] at hpageB
        simp at hpageB
        omega
      obtain ⟨cur2, hcur2⟩ := dfColumnLast_ok hpne (hdf (valueStr cur))
      obtain ⟨pages, num', curs', hrun, hPB, hsum', hge, hlt'⟩ :=
        ih (fetchNext (valueStr cur)) (num + (fetchNext (valueStr cur)).length)
          (acc ++ [fetchNext (valueStr cur)]) (curs ++ [valueStr cur])
          (hpages _) (hdf _) (by simp [hsum])
          (by
            intro p hp
            rcases List.mem_append.mp hp with h | h
            · exact hpagesB p h
            · rw [List.mem_singleton.mp h]
              exact hpages _)
          (by rw [hpageB]; omega) (by rw [hpageB]; omega)
      refine ⟨pages, num', curs', ?_, hPB, hsum', hge, hlt'⟩
      unfold entriesLoop
      rw [continuePaging_some_true hnum]
      simp only [if_true, hcur, List.isEmpty_eq_false.mpr hpne, Bool.false_eq_true,
        if_false, hcur2]
      exact hrun
    · exact ⟨acc, num, curs, entriesLoop_exit (by omega), hpagesB, hsum, by omega, hlt⟩

/-- C3 (amended): with max_records M set, a fetch stub whose pages all
have size B (0 < B < M, records carrying the date field), the loop
terminates within M iterations, keeps every fetched page whole, and
accumulates a count num with M ≤ num < M + B that equals the exact
sum of the fetched page sizes; the value get_entries returns is that
merged page list deduplicated, so its length equals num exactly when
the fetched records are pairwise distinct. -/
theorem maxRecords_cutoff
    (fetchNext : String → List Record) (datefield : String) (B M : Nat)
    (hB : 0 < B) (hBM : B < M)
    (hpages : ∀ c, (fetchNext c).length = B)
    (hdf : ∀ c, ∀ e ∈ fetchNext c, (e.lookup datefield).isSome)
    (firstPage : List Record) (hfp : firstPage.length = B)
    (hfd : ∀ e ∈ firstPage, (e.lookup datefield).isSome)
    (fuel : Nat) (hfuel : M ≤ fuel) :
    ∃ pages num cursors,
      entriesLoop fetchNext datefield (some M) fuel firstPage firstPage.length
        [firstPage] [] = .ok (pages, num, cursors) ∧
      paginateEntries firstPage fetchNext datefield (some M) fuel =
        .ok (mergeBatches pages, num, cursors) ∧
      (∀ p ∈ pages, p.length = B) ∧
      num = (pages.map List.length).sum ∧
      M ≤ num ∧ num < M + B ∧
      (pages.flatten.Nodup → (mergeBatches pages).length = num) := by
  have hfne : firstPage ≠ [] := by
    intro h0
    rw [h0] at hfp
    simp at hfp
    omega
  obtain ⟨pages, num, curs, hrun, hPB, hsum, hge, hlt⟩ :=
    entriesLoop_fullPages fetchNext datefield B M hB hpages hdf fuel firstPage
      firstPage.length [firstPage] [] hfp hfd (by simp)
      (by
        intro p hp
        rw [List.mem_singleton.mp hp]
        exact hfp)
      (by omega) (by omega)
  refine ⟨pages, num, curs, hrun, ?_, hPB, hsum, hge, hlt, ?_⟩
  · unfold paginateEntries
    rw [List.isEmpty_eq_false.mpr hfne]
    simp only [Bool.false_eq_true, if_false]
    obtain ⟨v, hv⟩ := dfColumnLast_ok hfne hfd
    rw [hv, hrun]
  · intro hnd
    unfold mergeBatches
    rw [dropDuplicates_eq_self hnd, List.length_flatten, hsum]

/-- Counterexample for C3 as stated: with M = 2, B = 1 and a stub that
returns the same record on every request, the run fetches two full
pages of one record each (accumulated count 2 = exact sum of page
sizes), but the returned deduplicated frame has a single row, so the
returned record count is not the sum of the sizes of the fetched
pages. -/
theorem maxRecords_returned_count_cex :
    paginateEntries [[("dateString", Value.str "b")]]
      (fun _ => [[("dateString", Value.str "b")]]) "dateString" (some 2) 5 =
      .ok ([[("dateString", Value.str "b")]], 2, ["b"]) ∧
    ([[("dateString", Value.str "b")]] : List Record).length = 1 ∧ (1 : Nat) ≠ 2 := by
  refine ⟨rfl, rfl, by decide⟩

/-- Witness for C3: a stub with distinct records, B = 1, M = 2. -/
theorem maxRecords_cutoff_witness :
    ∃ pages num cursors,
      entriesLoop (fun c => [[("dateString", Value.str ("x" ++ c))]]) "dateString"
        (some 2) 2 [[("dateString", Value.str "b")]]
        ([[("dateString", Value.str "b")]] : List Record).length
        [[[("dateString", Value.str "b")]]] [] = .ok (pages, num, cursors) ∧
      paginateEntries [[("dateString", Value.str "b")]]
        (fun c => [[("dateString", Value.str ("x" ++ c))]]) "dateString" (some 2) 2 =
        .ok (mergeBatches pages, num, cursors) ∧
      (∀ p ∈ pages, p.length = 1) ∧
      num = (pages.map List.length).sum ∧
      2 ≤ num ∧ num < 2 + 1 ∧
      (pages.flatten.Nodup → (mergeBatches pages).length = num) :=
  maxRecords_cutoff (fun c => [[("dateString", Value.str ("x" ++ c))]]) "dateString"
    1 2 (by decide) (by decide) (fun _ => rfl)
    (by
      intro c e he
      rw [List.mem_singleton.mp he]
      rfl)
    [[("dateString", Value.str "b")]] rfl
    (by
      intro e he
      rw [List.mem_singleton.mp he]
      rfl)
    2 (by decide)

/-- Timestamp of a record as the synthetic fetch stub reads it: the
string interpolation of its datefield value (the comparison itself is
performed by the stubbed server). -/
def recTs (e : Record) (datefield : String) : String :=
  valueStr ((e.lookup datefield).getD .null)

/-- The canonical fetch stub of the pagination-termination scenario: a
fixed dataset served newest-first, honoring the strictly-less-than
timestamp filter, B records at a time. -/
def sliceStub (recs : List Record) (datefield : String) (B : Nat) (c : String) :
    List Record :=
  (recs.filter (fun e => decide (recTs e datefield < c))).take B

theorem filter_lt_eq_drop {datefield : String} :
    ∀ {recs : List Record},
      recs.Pairwise (fun a b => recTs b datefield < recTs a datefield) →
      ∀ {m : Nat} {e : Record}, recs[m]? = some e →
        recs.filter (fun x => decide (recTs x datefield < recTs e datefield)) =
          recs.drop (m + 1) := by
  intro recs
  induction recs with
  | nil => intro _ m e he; rw [List.getElem?_nil] at he; cases he
  | cons a rest ih =>
    intro hdec m e he
    obtain ⟨hhead, htail⟩ := List.pairwise_cons.mp hdec
    cases m with
    | zero =>
      rw [List.getElem?_cons_zero] at he
      obtain rfl := Option.some.inj he
      rw [List.filter_cons_of_neg (by simp)]
      rw [List.filter_eq_self.mpr (fun x hx => decide_eq_true (hhead x hx))]
      rfl
    | succ m =>
      rw [List.getElem?_cons_succ] at he
      have hlt : recTs e datefield < recTs a datefield :=
        hhead e (mem_of_getElem?_list he)
      rw [List.filter_cons_of_neg (by
        simp only [decide_eq_true_eq]
        exact fun hcon => absurd hcon (asymm hlt))]
      rw [ih htail he]
      rfl

theorem nodup_of_pairwise_decreasing {recs : List Record} {datefield : String}
    (hdec : recs.Pairwise (fun a b => recTs b datefield < recTs a datefield)) :
    recs.Nodup := by
  refine hdec.imp ?_
  intro a b hab he
  subst he
  exact lt_irrefl _ hab

theorem all_isNone_false {data : List Record} {datefield : String}
    (hne : data ≠ []) (hall : ∀ e ∈ data, (e.lookup datefield).isSome) :
    data.all (fun e => (e.lookup datefield).isNone) = false := by
  cases data with
  | nil => exact absurd rfl hne
  | cons e l =>
    have h1 := hall e (List.mem_cons_self e l)
    rw [List.all_cons]
    cases hx : List.lookup datefield e with
    | none => rw [hx] at h1; cases h1
    | some v =>
      show ((some v).isNone && _) = false
      rfl

theorem dfColumnLast_eq {data : List Record} {datefield : String} {e : Record}
    (hlast : data.getLast? = some e)
    (hall : ∀ x ∈ data, (x.lookup datefield).isSome) :
    dfColumnLast data datefield = .ok ((e.lookup datefield).getD .null) := by
  have hne : data ≠ [] := by
    intro h0
    rw [h0] at hlast
    cases hlast
  unfold dfColumnLast
  rw [if_neg (by rw [all_isNone_false hne hall]; exact Bool.false_ne_true)]
  rw [hlast]

theorem entriesLoop_sliceStub (recs : List Record) (datefield : String) (B : Nat)
    (hB : 0 < B)
    (hdf : ∀ e ∈ recs, (e.lookup datefield).isSome)
    (hdec : recs.Pairwise (fun a b => recTs b datefield < recTs a datefield)) :
    ∀ (fuel k num : Nat) (acc : List (List Record)) (curs : List String),
      k < recs.length → recs.length - k ≤ fuel →
      ∃ pages curs',
        entriesLoop (sliceStub recs datefield B) datefield none fuel
          ((recs.drop k).take B) num acc curs =
          .ok (acc ++ pages, num + (recs.length - min (k + B) recs.length),
            curs ++ curs') ∧
        pages.flatten = recs.drop (k + B) := by
  intro fuel
  induction fuel with
  | zero => intro k num acc curs hk hfuel; exact absurd hfuel (by omega)
  | succ fuel ih =>
    intro k num acc curs hk hfuel
    have hdlen : ((recs.drop k).take B).length = min B (recs.length - k) := by
      rw [List.length_take, List.length_drop]
    have hdne : (recs.drop k).take B ≠ [] := by
      intro h0
      rw [h0] at hdlen
      simp at hdlen
      omega
    have hdf_page : ∀ e ∈ (recs.drop k).take B, (e.lookup datefield).isSome :=
      fun e he => hdf e (List.mem_of_mem_drop (List.mem_of_mem_take he))
    have hmlt : min (k + B) recs.length - 1 < recs.length := by omega
    obtain ⟨em, hem⟩ : ∃ em, recs[min (k + B) recs.length - 1]? = some em :=
      ⟨_, List.getElem?_eq_getElem hmlt⟩
    have hem_mem : em ∈ recs := mem_of_getElem?_list hem
    have hlast : ((recs.drop k).take B).getLast? = some em := by
      rw [List.getLast?_eq_getElem?, hdlen]
      rw [List.getElem?_take, if_pos (by omega : min B (recs.length - k) - 1 < B)]
      rw [List.getElem?_drop]
      rw [show k + (min B (recs.length - k) - 1) =
        min (k + B) recs.length - 1 from by omega]
      exact hem
    have hcur := dfColumnLast_eq hlast hdf_page
    have hpage : sliceStub recs datefield B
        (valueStr ((em.lookup datefield).getD .null)) =
        (recs.drop (min (k + B) recs.length - 1 + 1)).take B := by
      show (recs.filter
        (fun x => decide (recTs x datefield < recTs em datefield))).take B = _
      rw [filter_lt_eq_drop hdec hem]
    by_cases hkB : k + B < recs.length
    · -- a further full page exists
      have hm1 : min (k + B) recs.length - 1 + 1 = k + B := by omega
      rw [hm1] at hpage
      have hplen : ((recs.drop (k + B)).take B).length =
          min B (recs.length - (k + B)) := by
        rw [List.length_take, List.length_drop]
      have hpne : (recs.drop (k + B)).take B ≠ [] := by
        intro h0
        rw [h0] at hplen
        simp at hplen
        omega
      obtain ⟨c2, hc2⟩ := dfColumnLast_ok hpne
        (fun e he => hdf e (List.mem_of_mem_drop (List.mem_of_mem_take he)))
      obtain ⟨pages', curs2, hrun, hflat⟩ :=
        ih (k + B) (num + ((recs.drop (k + B)).take B).length)
          (acc ++ [(recs.drop (k + B)).take B])
          (curs ++ [valueStr ((em.lookup datefield).getD .null)]) hkB (by omega)
      refine ⟨(recs.drop (k + B)).take B :: pages',
        valueStr ((em.lookup datefield).getD .null) :: curs2, ?_, ?_⟩
      · unfold entriesLoop
        simp only [continuePaging, if_true, hcur, hpage,
          List.isEmpty_eq_false.mpr hpne, Bool.false_eq_true, if_false, hc2]
        rw [hrun]
        have hX : num + ((recs.drop (k + B)).take B).length +
            (recs.length - min (k + B + B) recs.length) =
            num + (recs.length - min (k + B) recs.length) := by
          rw [hplen]
          omega
        rw [hX]
        simp [List.append_assoc]
      · show (recs.drop (k + B)).take B ++ pages'.flatten = recs.drop (k + B)
        rw [hflat]
        have h2 : recs.drop (k + B + B) = (recs.drop (k + B)).drop B := by
          rw [List.drop_drop]
        rw [h2, List.take_append_drop]
    · -- the dataset is exhausted: the next fetch is empty
      have hdropN : recs.drop (min (k + B) recs.length - 1 + 1) = [] := by
        rw [show min (k + B) recs.length - 1 + 1 = recs.length from by omega]
        exact List.drop_length recs
      rw [hdropN] at hpage
      have hpage0 : sliceStub recs datefield B
          (valueStr ((em.lookup datefield).getD .null)) = [] := by
        rw [hpage]
        exact List.take_nil
      refine ⟨[], [valueStr ((em.lookup datefield).getD .null)], ?_, ?_⟩
      · unfold entriesLoop
        simp only [continuePaging, if_true, hcur, hpage0, List.isEmpty_nil]
        rw [show recs.length - min (k + B) recs.length = 0 from by omega]
        simp
      · show ([] : List Record) = recs.drop (k + B)
        rw [List.drop_eq_nil_of_le (by omega)]

/-- C4: with the canonical fetch stub serving a fixed nonempty dataset
of records with pairwise strictly decreasing timestamps in pages of
size B, the pagination run terminates (fuel equal to the dataset size
N suffices) and returns exactly the N records after deduplication,
for every page size B > 0: the cursor filter makes consecutive pages
tile the dataset without overlap, and deduplication removes nothing
since the records are pairwise distinct. -/
theorem pagination_termination (recs : List Record) (datefield : String) (B : Nat)
    (hB : 0 < B) (hN : 0 < recs.length)
    (hdf : ∀ e ∈ recs, (e.lookup datefield).isSome)
    (hdec : recs.Pairwise (fun a b => recTs b datefield < recTs a datefield)) :
    ∃ cursors,
      paginateEntries (recs.take B) (sliceStub recs datefield B) datefield none
        recs.length = .ok (recs, recs.length, cursors) := by
  obtain ⟨pages, curs', hrun, hflat⟩ :=
    entriesLoop_sliceStub recs datefield B hB hdf hdec recs.length 0
      (recs.take B).length [recs.take B] [] hN (by omega)
  rw [List.drop_zero] at hrun
  simp only [Nat.zero_add, List.nil_append] at hrun hflat
  have hne : recs.take B ≠ [] := by
    have hlt : (recs.take B).length = min B recs.length := List.length_take B recs
    intro h0
    rw [h0] at hlt
    simp at hlt
    omega
  refine ⟨curs', ?_⟩
  unfold paginateEntries
  rw [List.isEmpty_eq_false.mpr hne]
  simp only [Bool.false_eq_true, if_false]
  obtain ⟨v, hv⟩ := dfColumnLast_ok hne (fun e he => hdf e (List.mem_of_mem_take he))
  simp only [hv, hrun]
  have hmerge : mergeBatches (recs.take B :: pages) = recs := by
    unfold mergeBatches
    rw [List.flatten_cons, hflat, List.take_append_drop]
    exact dropDuplicates_eq_self (nodup_of_pairwise_decreasing hdec)
  rw [show (recs.take B :: pages : List (List Record)) =
    [recs.take B] ++ pages from rfl] at hmerge
  rw [hmerge]
  have hnum : (recs.take B).length + (recs.length - min B recs.length) =
      recs.length := by
    rw [List.length_take]
    omega
  rw [hnum]

/-- Witness for C4: three records with strictly decreasing date
strings served in pages of size two. -/
theorem pagination_termination_witness :
    ∃ cursors,
      paginateEntries
        (([[("dateString", Value.str "c")], [("dateString", Value.str "b")],
           [("dateString", Value.str "a")]] : List Record).take 2)
        (sliceStub [[("dateString", Value.str "c")], [("dateString", Value.str "b")],
           [("dateString", Value.str "a")]] "dateString" 2) "dateString" none
        ([[("dateString", Value.str "c")], [("dateString", Value.str "b")],
          [("dateString", Value.str "a")]] : List Record).length =
        .ok ([[("dateString", Value.str "c")], [("dateString", Value.str "b")],
          [("dateString", Value.str "a")]],
          ([[("dateString", Value.str "c")], [("dateString", Value.str "b")],
            [("dateString", Value.str "a")]] : List Record).length, cursors) :=
  pagination_termination
    [[("dateString", Value.str "c")], [("dateString", Value.str "b")],
     [("dateString", Value.str "a")]] "dateString" 2
    (by decide) (by decide)
    (by
      intro e he
      rcases List.mem_cons.mp he with rfl | he
      · rfl
      rcases List.mem_cons.mp he with rfl | he
      · rfl
      rw [List.mem_singleton.mp he]
      rfl)
    (by
      refine List.Pairwise.cons ?_ (List.Pairwise.cons ?_ (List.pairwise_singleton _ _))
      · intro b hb
        rcases List.mem_cons.mp hb with rfl | hb
        · rw [String.lt_iff_toList_lt]
          decide
        rw [List.mem_singleton.mp hb]
        rw [String.lt_iff_toList_lt]
        decide
      · intro b hb
        rw [List.mem_singleton.mp hb]
        rw [String.lt_iff_toList_lt]
        decide)

end NightscoutBackup
